import Mathlib

/-!
# Verification of the `dns-updater` repository

A shallow embedding, in Lean 4, of the parts of the `dns-updater` Rust
program that the specification's claims are about:

* the provider descriptors and their derived persistence keys
  (`src/dyn_dns.rs`: `FreeDns::new`, `DuckDns::new`, `Ovh::new`),
* the config parser (`src/dyn_dns.rs`: `parse_dns_tuples`),
* the provider update URL construction (`FreeDns::update`,
  `DuckDns::update`, `Ovh::update`),
* the persistence store (`src/persistence.rs`: `Persistence`),
* the address grabber (`src/ip_grabber.rs`: `IpGrabber`), and
* the textual address form written to and read back from the
  persistence files, i.e. the behaviour of Rust's `IpAddr`
  `Display`/`FromStr` implementations that `Persistence::replace_ip`
  and `Persistence::load_ip` call into.

Strings are modelled as `List Char` wherever the Rust code manipulates
them character by character, and as Lean `String` where the Rust code
only concatenates them.  Machine integers (`u8`, `u16`, `u64`) are
modelled as `Nat` with their bounds carried explicitly; the
overflow-checked parsing functions take the type's maximal value as an
argument.  Fallible code returns `Option`/`Except`; a Rust panic is
modelled as an explicit constructor of the result type.
-/

/-! ## Character and digit primitives -/

/-- The radix-independent part of Rust `char::to_digit`: the numeric
value of `0-9`, `a-z`, `A-Z`. -/
def charDigitVal (c : Char) : Option Nat :=
  if 48 ≤ c.toNat ∧ c.toNat ≤ 57 then some (c.toNat - 48)
  else if 97 ≤ c.toNat ∧ c.toNat ≤ 122 then some (c.toNat - 87)
  else if 65 ≤ c.toNat ∧ c.toNat ≤ 90 then some (c.toNat - 55)
  else none

/-- Rust `char::to_digit(radix)`: accepts `0-9`, `a-z`, `A-Z`, and
rejects digits `≥ radix`. -/
def charToDigit (radix : Nat) (c : Char) : Option Nat :=
  match charDigitVal c with
  | some d => if d < radix then some d else none
  | none => none

/-- The digit characters Rust's integer `Display`/`LowerHex` formatting
emits: `0-9` then lowercase `a-f`. -/
def natToDigitChar (d : Nat) : Char :=
  if d < 10 then Char.ofNat (48 + d) else Char.ofNat (87 + d)

/-- Big-endian digit characters of `n` in base `radix` (fuel-indexed so
that it is structurally recursive; `fuel = n` always suffices). -/
def natToCharsAux (radix : Nat) : Nat → Nat → List Char → List Char
  | 0, _, acc => acc
  | fuel + 1, n, acc =>
    if n = 0 then acc
    else natToCharsAux radix fuel (n / radix) (natToDigitChar (n % radix) :: acc)

/-- The text Rust's `{}` (with `radix = 10`) and `{:x}` (with
`radix = 16`) formatting produces for an unsigned integer `n`. -/
def natToChars (radix n : Nat) : List Char :=
  if n = 0 then ['0'] else natToCharsAux radix n n []

theorem natToCharsAux_eq (radix : Nat) (hr : 1 < radix) :
    ∀ fuel n acc, n ≤ fuel →
      natToCharsAux radix fuel n acc =
        ((Nat.digits radix n).reverse.map natToDigitChar) ++ acc := by
  intro fuel
  induction fuel with
  | zero =>
    intro n acc hn
    interval_cases n
    simp [natToCharsAux]
  | succ fuel ih =>
    intro n acc hn
    by_cases h0 : n = 0
    · subst h0; simp [natToCharsAux]
    · rw [natToCharsAux, if_neg h0, ih (n / radix) _ ?_,
        Nat.digits_def' hr (Nat.pos_of_ne_zero h0)]
      · simp
      · have : n / radix < n := Nat.div_lt_self (Nat.pos_of_ne_zero h0) hr
        omega

theorem natToChars_eq (radix n : Nat) (hr : 1 < radix) (hn : n ≠ 0) :
    natToChars radix n = (Nat.digits radix n).reverse.map natToDigitChar := by
  rw [natToChars, if_neg hn, natToCharsAux_eq radix hr n n [] le_rfl, List.append_nil]

theorem charDigitVal_natToDigitChar : ∀ d, d < 16 →
    charDigitVal (natToDigitChar d) = some d := by decide

theorem charToDigit_natToDigitChar (radix : Nat) (hr : radix ≤ 16) :
    ∀ d, d < radix → charToDigit radix (natToDigitChar d) = some d := by
  intro d hd
  rw [charToDigit, charDigitVal_natToDigitChar d (lt_of_lt_of_le hd hr)]
  simp [hd]

theorem natToChars_mem {radix n : Nat} (hr : 1 < radix) :
    ∀ c ∈ natToChars radix n, ∃ d, d < radix ∧ c = natToDigitChar d := by
  intro c hc
  by_cases h0 : n = 0
  · subst h0
    rw [natToChars, if_pos rfl, List.mem_singleton] at hc
    exact ⟨0, by omega, by rw [hc]; decide⟩
  · rw [natToChars_eq radix n hr h0] at hc
    simp only [List.mem_map, List.mem_reverse] at hc
    obtain ⟨d, hd, rfl⟩ := hc
    exact ⟨d, Nat.digits_lt_base hr hd, rfl⟩

theorem natToChars_ne_nil {radix : Nat} (n : Nat) (hr : 1 < radix) :
    natToChars radix n ≠ [] := by
  by_cases h0 : n = 0
  · simp [natToChars, h0]
  · rw [natToChars_eq radix n hr h0]
    simp only [ne_eq, List.map_eq_nil_iff, List.reverse_eq_nil_iff]
    exact Nat.digits_ne_nil_iff_ne_zero.mpr h0

/-- A canonical digit string has a leading zero only when it is the
single digit `0` itself. -/
theorem natToChars_head_zero {radix n : Nat} (hr : 1 < radix) (hr16 : radix ≤ 16)
    (h : (natToChars radix n).head? = some '0') : n = 0 := by
  by_contra h0
  rw [natToChars_eq radix n hr h0] at h
  rw [List.head?_map, List.head?_reverse,
    List.getLast?_eq_getLast _ (Nat.digits_ne_nil_iff_ne_zero.mpr h0)] at h
  simp only [Option.map_some', Option.some.injEq] at h
  have hlast := Nat.getLast_digit_ne_zero radix h0
  have hlt : (Nat.digits radix n).getLast (Nat.digits_ne_nil_iff_ne_zero.mpr h0) < radix :=
    Nat.digits_lt_base hr (List.getLast_mem _)
  have : ∀ d, d < 16 → natToDigitChar d = '0' → d = 0 := by decide
  exact hlast (this _ (lt_of_lt_of_le hlt hr16) h)

theorem natToChars_length_le {radix n k : Nat} (hr : 1 < radix) (hk : 1 ≤ k)
    (hn : n < radix ^ k) : (natToChars radix n).length ≤ k := by
  by_cases h0 : n = 0
  · simp [natToChars, h0, hk]
  · rw [natToChars_eq radix n hr h0]
    simp only [List.length_map, List.length_reverse]
    rw [Nat.digits_len radix n hr h0]
    have := Nat.log_lt_of_lt_pow h0 hn
    omega

/-- The value accumulated while reading digit characters left to right. -/
def hornerDigits (radix acc : Nat) (ds : List Nat) : Nat :=
  ds.foldl (fun a d => a * radix + d) acc

theorem hornerDigits_append (radix acc : Nat) (xs ys : List Nat) :
    hornerDigits radix acc (xs ++ ys) = hornerDigits radix (hornerDigits radix acc xs) ys :=
  List.foldl_append _ _ _ _

theorem hornerDigits_reverse (radix acc : Nat) (l : List Nat) :
    hornerDigits radix acc l.reverse = acc * radix ^ l.length + Nat.ofDigits radix l := by
  induction l generalizing acc with
  | nil => simp [hornerDigits]
  | cons d l ih =>
    calc hornerDigits radix acc (d :: l).reverse
        = hornerDigits radix acc (l.reverse ++ [d]) := by rw [List.reverse_cons]
      _ = hornerDigits radix (hornerDigits radix acc l.reverse) [d] :=
          hornerDigits_append ..
      _ = hornerDigits radix acc l.reverse * radix + d := rfl
      _ = (acc * radix ^ l.length + Nat.ofDigits radix l) * radix + d := by rw [ih]
      _ = acc * radix ^ (d :: l).length + Nat.ofDigits radix (d :: l) := by
          rw [Nat.ofDigits_cons, List.length_cons]
          ring

theorem hornerDigits_digits (radix n : Nat) :
    hornerDigits radix 0 (Nat.digits radix n).reverse = n := by
  rw [hornerDigits_reverse]
  simp [Nat.ofDigits_digits]

theorem hornerDigits_le (radix : Nat) (hr : 1 ≤ radix) (ds : List Nat) :
    ∀ acc, acc ≤ hornerDigits radix acc ds := by
  induction ds with
  | nil => intro acc; exact le_refl _
  | cons d ds ih =>
    intro acc
    calc acc = acc * 1 := (Nat.mul_one acc).symm
      _ ≤ acc * radix := Nat.mul_le_mul_left acc hr
      _ ≤ acc * radix + d := Nat.le_add_right _ _
      _ ≤ hornerDigits radix (acc * radix + d) ds := ih _
      _ = hornerDigits radix acc (d :: ds) := rfl

/-! ## IP versions and provider descriptors (`src/dyn_dns.rs`) -/

/-- Modelled from the spec: the repository's `IpVersion` type is referenced
by `src/dyn_dns.rs` and `src/ip_grabber.rs` (`crate::IpVersion`) but its
definition is not under `src/`; the spec fixes it as the two-variant set
`{V4, V6}` (§3). -/
inductive IpVersion where
  | V4
  | V6
deriving DecidableEq, Repr

/-- Modelled from the spec: the repository's `SimpleName` trait
(`crate::SimpleName`) is not under `src/`; the spec and the repository's
own tests fix `simple_name` to return exactly `"ipv4"` / `"ipv6"`
(§4.1 and `test_parse`). -/
def IpVersion.simple_name : IpVersion → String
  | .V4 => "ipv4"
  | .V6 => "ipv6"

/-- Modelled from the spec: the `TryFrom<&str>` conversion used by
`parse_dns_tuples` (`.try_into()?` on the VERSION field) is not under
`src/`; the spec says VERSION must be exactly `ipv4` or `ipv6` and that
an unparseable VERSION is a descriptive failure (§4.1). -/
def IpVersion.try_from (s : String) : Except String IpVersion :=
  if s = "ipv4" then .ok .V4
  else if s = "ipv6" then .ok .V6
  else .error ("Invalid IpVersion: " ++ s)

/-- The closed set of provider descriptors: `FreeDns`, `DuckDns`, `Ovh`
structs of `src/dyn_dns.rs`, with the fields their `new` constructors
store. -/
inductive Provider where
  | freeDns (token : String) (ip_version : IpVersion) (poll_secs : Nat)
  | duckDns (token name : String) (ip_version : IpVersion) (poll_secs : Nat)
  | ovh (username password subdomain : String) (ip_version : IpVersion) (poll_secs : Nat)
deriving DecidableEq, Repr

/-- The persistence key each `new` constructor derives and `file_name()`
returns: `FreeDns::new` line 30, `DuckDns::new` line 94, `Ovh::new`
line 165 of `src/dyn_dns.rs`.  Note `DuckDns` uses token and name only. -/
def Provider.file_name : Provider → String
  | .freeDns token ip_version _ => "FreeDNS_" ++ token ++ "_" ++ ip_version.simple_name
  | .duckDns token name _ _ => "DuckDNS_" ++ token ++ "_" ++ name
  | .ovh username _ subdomain ip_version _ =>
      "OVH_" ++ username ++ "_" ++ subdomain ++ "_" ++ ip_version.simple_name

def Provider.get_ip_version : Provider → IpVersion
  | .freeDns _ v _ => v
  | .duckDns _ _ v _ => v
  | .ovh _ _ _ v _ => v

def Provider.get_poll_secs : Provider → Nat
  | .freeDns _ _ p => p
  | .duckDns _ _ _ p => p
  | .ovh _ _ _ _ p => p

theorem simple_name_data_length (v : IpVersion) : v.simple_name.data.length = 4 := by
  cases v <;> rfl

theorem simple_name_injective {v1 v2 : IpVersion}
    (h : v1.simple_name = v2.simple_name) : v1 = v2 := by
  cases v1 <;> cases v2 <;> first | rfl | (exact absurd h (by decide))

/-- C1 counterexample input: two distinct DuckDns entries that differ only
in IP version but share one persistence key (`DuckDns::new` builds the
key from token and name only). -/
theorem duckDns_version_collision :
    (Provider.duckDns "tok" "name" IpVersion.V4 60 ≠
      Provider.duckDns "tok" "name" IpVersion.V6 60) ∧
    (Provider.duckDns "tok" "name" IpVersion.V4 60).file_name =
      (Provider.duckDns "tok" "name" IpVersion.V6 60).file_name := by
  exact ⟨by decide, rfl⟩

/-- C1 (amended): structure of the derived persistence keys.  FreeDns and
Ovh keys incorporate the variant tag, the identifying fields and the IP
version, so same-variant entries differing only in token / username /
subdomain / IP version get different keys; the DuckDns key incorporates
tag, token and name but not the IP version, so two DuckDns entries
differing only in IP version share a key while two differing only in
token do not; keys of different variants never coincide. -/
theorem provider_file_name_structure :
    (∀ t1 t2 v1 v2 p1 p2, (Provider.freeDns t1 v1 p1).file_name =
        (Provider.freeDns t2 v2 p2).file_name ↔ t1 = t2 ∧ v1 = v2)
  ∧ (∀ t n v1 v2 p1 p2, (Provider.duckDns t n v1 p1).file_name =
        (Provider.duckDns t n v2 p2).file_name)
  ∧ (∀ t1 t2 n v1 v2 p1 p2, (Provider.duckDns t1 n v1 p1).file_name =
        (Provider.duckDns t2 n v2 p2).file_name ↔ t1 = t2)
  ∧ (∀ u pw1 pw2 s v1 v2 p1 p2, (Provider.ovh u pw1 s v1 p1).file_name =
        (Provider.ovh u pw2 s v2 p2).file_name ↔ v1 = v2)
  ∧ (∀ u1 u2 pw1 pw2 s v p1 p2, (Provider.ovh u1 pw1 s v p1).file_name =
        (Provider.ovh u2 pw2 s v p2).file_name ↔ u1 = u2)
  ∧ (∀ u pw1 pw2 s1 s2 v p1 p2, (Provider.ovh u pw1 s1 v p1).file_name =
        (Provider.ovh u pw2 s2 v p2).file_name ↔ s1 = s2)
  ∧ (∀ t v p t' n' v' p', (Provider.freeDns t v p).file_name ≠
        (Provider.duckDns t' n' v' p').file_name)
  ∧ (∀ t v p u' pw' s' v' p', (Provider.freeDns t v p).file_name ≠
        (Provider.ovh u' pw' s' v' p').file_name)
  ∧ (∀ t n v p u' pw' s' v' p', (Provider.duckDns t n v p).file_name ≠
        (Provider.ovh u' pw' s' v' p').file_name) := by
  have hF : ("FreeDNS_" : String).data = ['F', 'r', 'e', 'e', 'D', 'N', 'S', '_'] := rfl
  have hD : ("DuckDNS_" : String).data = ['D', 'u', 'c', 'k', 'D', 'N', 'S', '_'] := rfl
  have hO : ("OVH_" : String).data = ['O', 'V', 'H', '_'] := rfl
  refine ⟨?_, ?_, ?_, ?_, ?_, ?_, ?_, ?_, ?_⟩
  · intro t1 t2 v1 v2 p1 p2
    constructor
    · intro h
      rw [String.ext_iff] at h
      simp only [Provider.file_name, String.data_append, List.append_assoc] at h
      have h1 := List.append_cancel_left h
      have h2 := List.append_inj' h1 (by
        rw [List.length_append, List.length_append, simple_name_data_length,
          simple_name_data_length])
      refine ⟨String.ext h2.1, ?_⟩
      have h3 := List.append_cancel_left h2.2
      exact simple_name_injective (String.ext h3)
    · rintro ⟨rfl, rfl⟩; rfl
  · intro t n v1 v2 p1 p2
    cases v1 <;> cases v2 <;> rfl
  · intro t1 t2 n v1 v2 p1 p2
    constructor
    · intro h
      rw [String.ext_iff] at h
      simp only [Provider.file_name, String.data_append, List.append_assoc] at h
      have h1 := List.append_cancel_left h
      exact String.ext (List.append_cancel_right h1)
    · rintro rfl; cases v1 <;> cases v2 <;> rfl
  · intro u pw1 pw2 s v1 v2 p1 p2
    constructor
    · intro h
      rw [String.ext_iff] at h
      simp only [Provider.file_name, String.data_append, List.append_assoc] at h
      have h1 := List.append_cancel_left (List.append_cancel_left
        (List.append_cancel_left (List.append_cancel_left (List.append_cancel_left h))))
      exact simple_name_injective (String.ext h1)
    · rintro rfl; rfl
  · intro u1 u2 pw1 pw2 s v p1 p2
    constructor
    · intro h
      rw [String.ext_iff] at h
      simp only [Provider.file_name, String.data_append, List.append_assoc] at h
      have h1 := List.append_cancel_left h
      exact String.ext (List.append_cancel_right h1)
    · rintro rfl; rfl
  · intro u pw1 pw2 s1 s2 v p1 p2
    constructor
    · intro h
      rw [String.ext_iff] at h
      simp only [Provider.file_name, String.data_append, List.append_assoc] at h
      have h1 := List.append_cancel_left
        (List.append_cancel_left (List.append_cancel_left h))
      exact String.ext (List.append_cancel_right h1)
    · rintro rfl; rfl
  · intro t v p t' n' v' p' h
    rw [String.ext_iff] at h
    simp only [Provider.file_name, String.data_append, List.append_assoc, hF, hD] at h
    simp at h
  · intro t v p u' pw' s' v' p' h
    rw [String.ext_iff] at h
    simp only [Provider.file_name, String.data_append, List.append_assoc, hF, hO] at h
    simp at h
  · intro t n v p u' pw' s' v' p' h
    rw [String.ext_iff] at h
    simp only [Provider.file_name, String.data_append, List.append_assoc, hD, hO] at h
    simp at h

theorem provider_file_name_structure_witness :
    ((Provider.freeDns "a" IpVersion.V4 1).file_name =
        (Provider.freeDns "a" IpVersion.V4 2).file_name ↔
      ("a" : String) = "a" ∧ IpVersion.V4 = IpVersion.V4) ∧
    (Provider.freeDns "a" IpVersion.V4 1).file_name ≠
      (Provider.duckDns "a" "b" IpVersion.V4 1).file_name :=
  ⟨provider_file_name_structure.1 "a" "a" IpVersion.V4 IpVersion.V4 1 2,
   provider_file_name_structure.2.2.2.2.2.2.1 "a" IpVersion.V4 1 "a" "b" IpVersion.V4 1⟩

/-! ## String splitting and trimming primitives from Rust `str` -/

/-- Rust `char::is_whitespace` (the Unicode `White_Space` property). -/
def rustIsWhitespace (c : Char) : Bool :=
  c.toNat = 0x20 ∨ (0x9 ≤ c.toNat ∧ c.toNat ≤ 0xD) ∨ c.toNat = 0x85 ∨
  c.toNat = 0xA0 ∨ c.toNat = 0x1680 ∨ (0x2000 ≤ c.toNat ∧ c.toNat ≤ 0x200A) ∨
  c.toNat = 0x2028 ∨ c.toNat = 0x2029 ∨ c.toNat = 0x202F ∨ c.toNat = 0x205F ∨
  c.toNat = 0x3000

/-- Rust `str::trim`: whitespace stripped from both ends. -/
def rustTrim (l : List Char) : List Char :=
  ((l.dropWhile rustIsWhitespace).reverse.dropWhile rustIsWhitespace).reverse

theorem dropWhile_eq_self_of_not {α : Type} (p : α → Bool) :
    ∀ l : List α, (∀ c ∈ l, p c = false) → l.dropWhile p = l := by
  intro l h
  cases l with
  | nil => rfl
  | cons c r => rw [List.dropWhile_cons_of_neg (by simp [h c (List.mem_cons_self c r)])]

theorem rustTrim_eq_self {l : List Char} (h : ∀ c ∈ l, rustIsWhitespace c = false) :
    rustTrim l = l := by
  rw [rustTrim, dropWhile_eq_self_of_not _ l h,
    dropWhile_eq_self_of_not _ l.reverse (by intro c hc; exact h c (List.mem_reverse.mp hc)),
    List.reverse_reverse]

/-- Rust `str::split(sep)` for a one-character separator: keeps empty
pieces, yields `[""]` on the empty string. -/
def splitOnCharAux (sep : Char) : List Char → List Char → List (List Char)
  | [], cur => [cur.reverse]
  | x :: r, cur =>
    if x = sep then cur.reverse :: splitOnCharAux sep r []
    else splitOnCharAux sep r (x :: cur)

def splitOnChar (sep : Char) (l : List Char) : List (List Char) :=
  splitOnCharAux sep l []

/-- Rust `str::trim_start_matches` for a one-character pattern. -/
def trimStartMatches (pat : Char) (l : List Char) : List Char :=
  l.dropWhile (· = pat)

/-- Rust `str::trim_end_matches` for a one-character pattern. -/
def trimEndMatches (pat : Char) (l : List Char) : List Char :=
  (l.reverse.dropWhile (· = pat)).reverse

/-! ## Checked integer parsing: Rust `from_str_radix` -/

/-- The digit-consuming loop of `from_str_radix`, with `checked_mul` /
`checked_add` against the target type's maximum modelled as a direct
bound check (the running value only grows, so the checks coincide). -/
def fromStrRadixAux (radix maxVal : Nat) : List Char → Nat → Option Nat
  | [], acc => some acc
  | c :: r, acc =>
    match charToDigit radix c with
    | none => none
    | some d =>
      if maxVal < acc * radix + d then none
      else fromStrRadixAux radix maxVal r (acc * radix + d)

/-- The optional leading `+` sign accepted by `from_str_radix`. -/
def stripPlus (s : List Char) : List Char :=
  if s.head? = some '+' then s.tail else s

/-- Rust `uN::from_str_radix(s, radix)` (also `str::parse::<uN>()`, which
delegates to it with radix 10): an optional leading `+`, then at least
one digit, all digits, no overflow past `maxVal`. -/
def fromStrRadix (radix maxVal : Nat) (s : List Char) : Option Nat :=
  if stripPlus s = [] then none else fromStrRadixAux radix maxVal (stripPlus s) 0

/-- Rust `str::parse::<u64>()` on a string. -/
def parseU64 (s : String) : Option Nat :=
  fromStrRadix 10 18446744073709551615 s.data

/-! ## The config parser: `parse_dns_tuples` (`src/dyn_dns.rs:233`) -/

/-- One batch cleaned the way `parse_dns_tuples` does:
`s.trim().trim_start_matches("(").trim_end_matches(")")`. -/
def cleanBatch (b : List Char) : List Char :=
  trimEndMatches ')' (trimStartMatches '(' (rustTrim b))

/-- The `;`-separated fields of one cleaned batch. -/
def batchFieldsOf (b : List Char) : List String :=
  (splitOnChar ';' (cleanBatch b)).map String.mk

/-- Rust `Iterator::next` on the field iterator: `ok_or(err)?`. -/
def nextField (err : String) : List String → Except String (String × List String)
  | [] => .error err
  | f :: r => .ok (f, r)

/-- The per-batch match of `parse_dns_tuples` (lines 255-323), operating
on the already-split fields.  The first field is the type tag; each
required field is pulled with `parts.next().ok_or(...)?`; surplus fields
are never read. -/
def parseBatchFields (fields : List String) : Except String Provider :=
  match fields with
  | [] => .error "Empty Batch found"
  | tag :: rest =>
    if tag = "FD" then do
      let (token, r1) ← nextField "No TOKEN found in batch" rest
      let (vs, r2) ← nextField "No VERSION found in batch" r1
      let version ← IpVersion.try_from vs
      let (ps, _) ← nextField "No POLL_SECS found in batch" r2
      match parseU64 ps with
      | none => .error "Couldn't parse POLL_SECS"
      | some poll_secs => .ok (.freeDns token version poll_secs)
    else if tag = "DD" then do
      let (token, r1) ← nextField "No TOKEN found in batch" rest
      let (vs, r2) ← nextField "No VERSION found in batch" r1
      let version ← IpVersion.try_from vs
      let (ps, r3) ← nextField "No POLL_SECS found in batch" r2
      match parseU64 ps with
      | none => .error "Couldn't parse POLL_SECS"
      | some poll_secs => do
        let (name, _) ← nextField "No NAME found in batch" r3
        .ok (.duckDns token name version poll_secs)
    else if tag = "OVH" then do
      let (username, r1) ← nextField "No USERNAME found in batch" rest
      let (password, r2) ← nextField "No PASSWORD found in batch" r1
      let (subdomain, r3) ← nextField "No SUBDOMAIN found in batch" r2
      let (vs, r4) ← nextField "No VERSION found in batch" r3
      let version ← IpVersion.try_from vs
      let (ps, _) ← nextField "No POLL_SECS found in batch" r4
      match parseU64 ps with
      | none => .error "Couldn't parse POLL_SECS"
      | some poll_secs => .ok (.ovh username password subdomain version poll_secs)
    else .error ("Invalid Dynamic Dns Type found: " ++ tag)

/-- One whole batch: clean, split on `;`, parse. -/
def parseBatch (b : List Char) : Except String Provider :=
  parseBatchFields (batchFieldsOf b)

/-- The `,`-separated batches of the input string. -/
def batchesOf (input : String) : List (List Char) :=
  splitOnChar ',' input.data

/-- Rust `collect::<Result<Vec<_>, _>>()`: all-or-nothing, stops at the
first error. -/
def collectResults {α β ε : Type} (f : α → Except ε β) : List α → Except ε (List β)
  | [] => .ok []
  | a :: l =>
    match f a with
    | .error e => .error e
    | .ok b =>
      match collectResults f l with
      | .error e => .error e
      | .ok bs => .ok (b :: bs)

/-- `parse_dns_tuples` (`src/dyn_dns.rs:233-326`): split on `,`, parse
each batch, collect all-or-nothing. -/
def parse_dns_tuples (input : String) : Except String (List Provider) :=
  collectResults parseBatch (batchesOf input)

instance exceptDecidableEq {ε α : Type} [DecidableEq ε] [DecidableEq α] :
    DecidableEq (Except ε α) := fun x y =>
  match x, y with
  | .ok a, .ok b =>
    if h : a = b then isTrue (by rw [h]) else isFalse (by intro hh; cases hh; exact h rfl)
  | .error e, .error f =>
    if h : e = f then isTrue (by rw [h]) else isFalse (by intro hh; cases hh; exact h rfl)
  | .ok _, .error _ => isFalse (by intro h; cases h)
  | .error _, .ok _ => isFalse (by intro h; cases h)

theorem collectResults_spec {α β ε : Type} (f : α → Except ε β) (l : List α) :
    match collectResults f l with
    | .ok bs => bs.length = l.length ∧ ∀ i (h1 : i < l.length) (h2 : i < bs.length),
        f (l.get ⟨i, h1⟩) = .ok (bs.get ⟨i, h2⟩)
    | .error e => ∃ a ∈ l, f a = .error e := by
  induction l with
  | nil => exact ⟨rfl, fun i h1 => absurd h1 (Nat.not_lt_zero i)⟩
  | cons a l ih =>
    rw [collectResults]
    cases hfa : f a with
    | error e => exact ⟨a, List.mem_cons_self a l, hfa⟩
    | ok b =>
      cases hcl : collectResults f l with
      | error e =>
        rw [hcl] at ih
        obtain ⟨a', ha', he'⟩ := ih
        exact ⟨a', List.mem_cons_of_mem a ha', he'⟩
      | ok bs =>
        rw [hcl] at ih
        refine ⟨by simp [ih.1], ?_⟩
        intro i h1 h2
        match i with
        | 0 => exact hfa
        | i + 1 =>
          exact ih.2 i (Nat.lt_of_succ_lt_succ h1) (Nat.lt_of_succ_lt_succ h2)

theorem collectResults_error_of {α β ε : Type} (f : α → Except ε β) (l : List α)
    (a : α) (ha : a ∈ l) (e : ε) (he : f a = .error e) :
    ∃ e', collectResults f l = .error e' := by
  induction l with
  | nil => cases ha
  | cons x l ih =>
    rw [collectResults]
    cases hfx : f x with
    | error e' => exact ⟨e', rfl⟩
    | ok b =>
      rcases List.mem_cons.mp ha with rfl | ha'
      · rw [hfx] at he; cases he
      · obtain ⟨e', he'⟩ := ih ha'
        rw [he']
        exact ⟨e', rfl⟩

/-- C3: the config parser is all-or-nothing and order preserving.  On
success it returns exactly one provider per `,`-separated batch, in
batch order, each being that batch's parse; if any batch fails to parse
(for any of the per-batch reasons embedded in `parseBatchFields`:
missing/unknown tag, missing field, bad VERSION or POLL_SECS), the whole
parse returns an error and no partial list. -/
theorem parse_dns_tuples_all_or_nothing (input : String) :
    (∀ ps, parse_dns_tuples input = .ok ps →
      ps.length = (batchesOf input).length ∧
      ∀ i (h1 : i < (batchesOf input).length) (h2 : i < ps.length),
        parseBatch ((batchesOf input).get ⟨i, h1⟩) = .ok (ps.get ⟨i, h2⟩)) ∧
    (∀ e, parse_dns_tuples input = .error e →
      ∃ b ∈ batchesOf input, parseBatch b = .error e) ∧
    ((∃ b ∈ batchesOf input, ∃ e, parseBatch b = .error e) →
      ∃ e, parse_dns_tuples input = .error e) := by
  refine ⟨?_, ?_, ?_⟩
  · intro ps hps
    have h := collectResults_spec parseBatch (batchesOf input)
    rw [show collectResults parseBatch (batchesOf input) = parse_dns_tuples input from rfl,
      hps] at h
    exact h
  · intro e he
    have h := collectResults_spec parseBatch (batchesOf input)
    rw [show collectResults parseBatch (batchesOf input) = parse_dns_tuples input from rfl,
      he] at h
    exact h
  · rintro ⟨b, hb, e, he⟩
    exact collectResults_error_of parseBatch (batchesOf input) b hb e he

theorem parse_dns_tuples_all_or_nothing_witness :
    ([Provider.freeDns "TOK" .V4 0, Provider.freeDns "TOK" .V6 125].length =
        (batchesOf "(FD;TOK;ipv4;0),FD;TOK;ipv6;125;").length ∧
      parseBatch ((batchesOf "(FD;TOK;ipv4;0),FD;TOK;ipv6;125;").get ⟨1, by decide⟩) =
        .ok ([Provider.freeDns "TOK" .V4 0, Provider.freeDns "TOK" .V6 125].get ⟨1, by decide⟩)) ∧
    (∃ e, parse_dns_tuples "(FD;TOK;),DD;TOK;ipv6;1;n" = .error e) := by
  have hmain := (parse_dns_tuples_all_or_nothing "(FD;TOK;ipv4;0),FD;TOK;ipv6;125;").1
    [Provider.freeDns "TOK" .V4 0, Provider.freeDns "TOK" .V6 125] (by decide)
  refine ⟨⟨hmain.1, hmain.2 1 (by decide) (by decide)⟩, ?_⟩
  exact (parse_dns_tuples_all_or_nothing "(FD;TOK;),DD;TOK;ipv6;1;n").2.2
    ⟨"(FD;TOK;".data ++ [')'], by decide, "Invalid IpVersion: ", by decide⟩

/-- C10: surplus `;`-separated fields after the required ones are never
inspected: for each known tag, parsing with extra fields appended gives
exactly the same result as parsing the required fields alone
(`parse_dns_tuples` pulls fields one by one with `parts.next()` and
never touches the iterator's remainder). -/
theorem parse_ignores_extra_fields (t v p n u pw s : String) (extras : List String) :
    (parseBatchFields ("FD" :: t :: v :: p :: extras) =
      parseBatchFields ["FD", t, v, p]) ∧
    (parseBatchFields ("DD" :: t :: v :: p :: n :: extras) =
      parseBatchFields ["DD", t, v, p, n]) ∧
    (parseBatchFields ("OVH" :: u :: pw :: s :: v :: p :: extras) =
      parseBatchFields ["OVH", u, pw, s, v, p]) := by
  refine ⟨?_, ?_, ?_⟩ <;>
    simp only [parseBatchFields, nextField, bind, Except.bind] <;>
    (cases IpVersion.try_from v <;> cases parseU64 p <;> rfl)

theorem parse_ignores_extra_fields_witness :
    parseBatchFields ["FD", "TOK", "ipv6", "125", "extra"] =
      parseBatchFields ["FD", "TOK", "ipv6", "125"] :=
  (parse_ignores_extra_fields "TOK" "ipv6" "125" "n" "u" "pw" "s" ["extra"]).1

/-! ## Rust's IP address parser (`core::net::parser`)

The persistence store writes `ip.to_string()` and reads back with
`content.trim().parse::<IpAddr>()`; claims C2 and C8 depend on the exact
behaviour of Rust's `Display` and `FromStr` for `IpAddr`, embedded here
from the standard library's `core/src/net/{display_buffer,parser}.rs`
semantics.  The parser state is the remaining character list; an overall
parse requires full consumption (`Parser::parse_str`). -/

/-- `Parser::read_given_char`. -/
def readGivenChar (c : Char) : List Char → Option (List Char)
  | [] => none
  | x :: r => if x = c then some r else none

/-- `digit_count > max_digits` in `read_number`. -/
def digitLimitExceeded (maxDigits : Option Nat) (count : Nat) : Bool :=
  match maxDigits with
  | some md => decide (md < count)
  | none => false

/-- `Parser::read_number(radix, max_digits, allow_zero_prefix)` on a
`uN` with maximal value `maxVal`: greedily consumes digit characters,
failing on overflow or on more than `maxDigits` digits; then requires at
least one digit and applies the leading-zero rule.  Returns the value,
the digit count and the rest. -/
def readNumberAux (radix maxVal : Nat) (maxDigits : Option Nat) :
    List Char → Nat → Nat → Option (Nat × Nat × List Char)
  | [], acc, count => some (acc, count, [])
  | c :: r, acc, count =>
    (charToDigit radix c).elim (some (acc, count, c :: r)) (fun d =>
      if digitLimitExceeded maxDigits (count + 1) then none
      else if maxVal < acc * radix + d then none
      else readNumberAux radix maxVal maxDigits r (acc * radix + d) (count + 1))

def readNumber (radix maxVal : Nat) (maxDigits : Option Nat) (allowZeroPrefix : Bool)
    (l : List Char) : Option (Nat × List Char) :=
  match readNumberAux radix maxVal maxDigits l 0 0 with
  | none => none
  | some (v, count, rest) =>
    if count = 0 then none
    else if ¬allowZeroPrefix ∧ l.head? = some '0' ∧ 1 < count then none
    else some (v, rest)

/-- `Parser::read_ipv4_addr`: four `u8` groups, each
`read_number(10, Some(3), false)`, separated by `.`. -/
def readIpv4 (l : List Char) : Option ((Nat × Nat × Nat × Nat) × List Char) :=
  match readNumber 10 255 (some 3) false l with
  | none => none
  | some (a, r1) =>
    match readGivenChar '.' r1 with
    | none => none
    | some r1' =>
      match readNumber 10 255 (some 3) false r1' with
      | none => none
      | some (b, r2) =>
        match readGivenChar '.' r2 with
        | none => none
        | some r2' =>
          match readNumber 10 255 (some 3) false r2' with
          | none => none
          | some (c, r3) =>
            match readGivenChar '.' r3 with
            | none => none
            | some r3' =>
              match readNumber 10 255 (some 3) false r3' with
              | none => none
              | some (d, r4) => some ((a, b, c, d), r4)

/-- `Parser::read_separator(':', i, inner)`: a `:` is required before
every group except the first. -/
def readSeparated {β : Type} (first : Bool) (inner : List Char → Option (β × List Char))
    (l : List Char) : Option (β × List Char) :=
  if first then inner l
  else
    match readGivenChar ':' l with
    | none => none
    | some r => inner r

/-- The `read_groups` loop of `read_ipv6_addr`, with the remaining slot
count `slots = limit - i` made structural (`first` tracks `i = 0`, and
an embedded trailing IPv4 address is attempted only while at least two
slots remain, i.e. `i < limit - 1`).  Returns the groups read, whether
an embedded IPv4 address was consumed, and the rest. -/
def readGroupsGo : Nat → Bool → List Char → List Nat → (List Nat × Bool × List Char)
  | 0, _, l, acc => (acc, false, l)
  | slots + 1, first, l, acc =>
    match (if 1 ≤ slots then readSeparated first readIpv4 l else none) with
    | some ((a, b, c, d), rest) => (acc ++ [a * 256 + b, c * 256 + d], true, rest)
    | none =>
      match readSeparated first (readNumber 16 65535 (some 4) true) l with
      | some (g, rest) => readGroupsGo slots false rest (acc ++ [g])
      | none => (acc, false, l)

/-- `Parser::read_ipv6_addr`: up to 8 head groups; if fewer than 8, a
`::`, then tail groups into the remaining slots (at least one group of
zeros), zeros in between.  An embedded IPv4 address may only end the
address. -/
def readIpv6 (l : List Char) : Option (List Nat × List Char) :=
  match readGroupsGo 8 true l [] with
  | (head, headIpv4, r1) =>
    if head.length = 8 then some (head, r1)
    else if headIpv4 then none
    else
      match readGivenChar ':' r1 with
      | none => none
      | some r2 =>
        match readGivenChar ':' r2 with
        | none => none
        | some r3 =>
          match readGroupsGo (8 - (head.length + 1)) true r3 [] with
          | (tail, _, r4) =>
            some (head ++ List.replicate (8 - head.length - tail.length) 0 ++ tail, r4)

/-- The address values the program moves around: Rust `IpAddr`.  A V4
address is four octets, a V6 address its eight 16-bit groups. -/
inductive IpAddrM where
  | v4 (a b c d : Nat)
  | v6 (segs : List Nat)
deriving DecidableEq, Repr

/-- The in-range condition the Rust types enforce by construction. -/
def IpAddrM.valid : IpAddrM → Prop
  | .v4 a b c d => a < 256 ∧ b < 256 ∧ c < 256 ∧ d < 256
  | .v6 segs => segs.length = 8 ∧ ∀ g ∈ segs, g < 65536

/-- `Parser::read_ip_addr`: try IPv4 first, then IPv6. -/
def readIpAddr (l : List Char) : Option (IpAddrM × List Char) :=
  match readIpv4 l with
  | some ((a, b, c, d), rest) => some (.v4 a b c d, rest)
  | none =>
    match readIpv6 l with
    | some (segs, rest) => some (.v6 segs, rest)
    | none => none

/-- `IpAddr::from_str`: the whole string must be consumed. -/
def parseIpAddrChars (l : List Char) : Option IpAddrM :=
  match readIpAddr l with
  | some (ip, []) => some ip
  | _ => none

/-! ## Rust's IP address display (`core::net::ip_addr` `Display` impls) -/

/-- Decimal text of a `u8` (`{}` formatting). -/
def decChars (n : Nat) : List Char := natToChars 10 n

/-- Lowercase hex text of a `u16` (`{:x}` formatting). -/
def hexChars (n : Nat) : List Char := natToChars 16 n

/-- `Ipv4Addr`'s `Display`: dotted quad. -/
def ipv4Chars (a b c d : Nat) : List Char :=
  decChars a ++ '.' :: decChars b ++ '.' :: decChars c ++ '.' :: decChars d

/-- `fmt_subslice`: hex groups joined by `:`. -/
def sepGroups : List Nat → List Char
  | [] => []
  | [g] => hexChars g
  | g :: gs => hexChars g ++ ':' :: sepGroups gs

/-- The zero-span search in `Ipv6Addr`'s `Display`: the first of the
longest runs of zero segments, as `(start, length)`, both `0` when there
is no zero segment.  Mirrors the fold over `(current, longest)`. -/
def zeroSpanAux : List Nat → Nat → Nat × Nat → Nat × Nat → Nat × Nat
  | [], _, _, longest => longest
  | g :: rest, i, current, longest =>
    if g = 0 then
      let cur := (if current.2 = 0 then i else current.1, current.2 + 1)
      zeroSpanAux rest (i + 1) cur (if longest.2 < cur.2 then cur else longest)
    else zeroSpanAux rest (i + 1) (0, 0) longest

def zeroSpan (segs : List Nat) : Nat × Nat := zeroSpanAux segs 0 (0, 0) (0, 0)

/-- `Ipv6Addr::to_ipv4_mapped().is_some()`: the first five groups zero
and the sixth `0xffff`. -/
def isMapped (segs : List Nat) : Bool :=
  match segs with
  | [a, b, c, d, e, f, _, _] => a == 0 && b == 0 && c == 0 && d == 0 && e == 0 && f == 65535
  | _ => false

/-- `Ipv6Addr`'s `Display`: an IPv4-mapped address prints as
`::ffff:a.b.c.d`; otherwise the longest zero run (if of length ≥ 2) is
compressed to `::`; otherwise all eight groups are printed. -/
def ipv6Chars (segs : List Nat) : List Char :=
  if isMapped segs then
    ':' :: ':' :: 'f' :: 'f' :: 'f' :: 'f' :: ':' ::
      ipv4Chars (segs.getD 6 0 / 256) (segs.getD 6 0 % 256)
        (segs.getD 7 0 / 256) (segs.getD 7 0 % 256)
  else if 1 < (zeroSpan segs).2 then
    sepGroups (segs.take (zeroSpan segs).1) ++ ':' :: ':' ::
      sepGroups (segs.drop ((zeroSpan segs).1 + (zeroSpan segs).2))
  else sepGroups segs

/-- `IpAddr`'s `Display`: delegates per variant. -/
def ipAddrToChars : IpAddrM → List Char
  | .v4 a b c d => ipv4Chars a b c d
  | .v6 segs => ipv6Chars segs

/-! ## Round-trip lemmas: `read_number` on canonical digit text -/

/-- The next character (if any) is not a digit in the given radix. -/
def notDigitAt (radix : Nat) (l : List Char) : Prop :=
  ∀ c, l.head? = some c → charToDigit radix c = none

theorem notDigitAt_nil (radix : Nat) : notDigitAt radix [] := by
  intro c hc; cases hc

theorem notDigitAt_cons {radix : Nat} {c : Char} (h : charToDigit radix c = none)
    (l : List Char) : notDigitAt radix (c :: l) := by
  intro c' hc'
  cases hc'
  exact h

theorem readNumberAux_stop (radix maxVal : Nat) (maxDigits : Option Nat)
    {l : List Char} (h : notDigitAt radix l) (acc count : Nat) :
    readNumberAux radix maxVal maxDigits l acc count = some (acc, count, l) := by
  cases l with
  | nil => rfl
  | cons c r =>
    rw [readNumberAux, h c rfl]
    rfl

theorem readNumber_none_of_notDigit (radix maxVal : Nat) (maxDigits : Option Nat)
    (azp : Bool) {l : List Char} (h : notDigitAt radix l) :
    readNumber radix maxVal maxDigits azp l = none := by
  rw [readNumber]
  simp only [readNumberAux_stop radix maxVal maxDigits h 0 0]
  simp

/-- No digit-count limit, or the count stays within it. -/
def withinLimit (maxDigits : Option Nat) (n : Nat) : Prop :=
  match maxDigits with
  | some md => n ≤ md
  | none => True

theorem readNumberAux_consume {radix : Nat} (hr : 2 ≤ radix) (hr16 : radix ≤ 16)
    (maxVal : Nat) (maxDigits : Option Nat) :
    ∀ (ds : List Nat) (rest : List Char) (acc count : Nat),
      (∀ d ∈ ds, d < radix) →
      notDigitAt radix rest →
      hornerDigits radix acc ds ≤ maxVal →
      withinLimit maxDigits (count + ds.length) →
      readNumberAux radix maxVal maxDigits (ds.map natToDigitChar ++ rest) acc count =
        some (hornerDigits radix acc ds, count + ds.length, rest) := by
  intro ds
  induction ds with
  | nil =>
    intro rest acc count _ hrest _ _
    simp only [List.map_nil, List.nil_append, List.length_nil, Nat.add_zero]
    exact readNumberAux_stop radix maxVal maxDigits hrest acc count
  | cons d ds ih =>
    intro rest acc count hds hrest hval hlim
    have hd : d < radix := hds d (List.mem_cons_self d ds)
    have hstep : hornerDigits radix acc (d :: ds) =
        hornerDigits radix (acc * radix + d) ds := rfl
    have hmono : acc * radix + d ≤ hornerDigits radix acc (d :: ds) := by
      rw [hstep]; exact hornerDigits_le radix (by omega) ds _
    rw [List.map_cons, List.cons_append, readNumberAux,
      charToDigit_natToDigitChar radix hr16 d hd]
    have hlimStep : digitLimitExceeded maxDigits (count + 1) = false := by
      cases maxDigits with
      | none => rfl
      | some md =>
        simp only [withinLimit, List.length_cons] at hlim
        simp only [digitLimitExceeded, decide_eq_false_iff_not]
        omega
    have hov : ¬maxVal < acc * radix + d := Nat.not_lt.mpr (le_trans hmono hval)
    rw [Option.elim_some, hlimStep, if_neg Bool.false_ne_true, if_neg hov]
    rw [ih rest (acc * radix + d) (count + 1)
      (fun x hx => hds x (List.mem_cons_of_mem d hx)) hrest
      (by rw [← hstep]; exact hval)
      (by cases maxDigits <;> simp only [withinLimit, List.length_cons] at hlim ⊢ <;> omega)]
    rw [hstep, List.length_cons, show count + 1 + ds.length = count + (ds.length + 1) by omega]

/-- The big-endian digit values of `n`, matching `natToChars`. -/
def bigDigits (radix n : Nat) : List Nat :=
  if n = 0 then [0] else (Nat.digits radix n).reverse

theorem natToChars_eq_map_bigDigits (radix n : Nat) (hr : 1 < radix) :
    natToChars radix n = (bigDigits radix n).map natToDigitChar := by
  by_cases h0 : n = 0
  · subst h0; rfl
  · rw [natToChars_eq radix n hr h0, bigDigits, if_neg h0]

theorem bigDigits_lt (radix n : Nat) (hr : 1 < radix) :
    ∀ d ∈ bigDigits radix n, d < radix := by
  intro d hd
  rw [bigDigits] at hd
  by_cases h0 : n = 0
  · rw [if_pos h0, List.mem_singleton] at hd
    omega
  · rw [if_neg h0, List.mem_reverse] at hd
    exact Nat.digits_lt_base hr hd

theorem hornerDigits_bigDigits (radix n : Nat) :
    hornerDigits radix 0 (bigDigits radix n) = n := by
  by_cases h0 : n = 0
  · subst h0; simp [bigDigits, hornerDigits]
  · rw [bigDigits, if_neg h0, hornerDigits_digits]

theorem bigDigits_length {radix : Nat} (n : Nat) (hr : 1 < radix) :
    (bigDigits radix n).length = (natToChars radix n).length := by
  by_cases h0 : n = 0
  · subst h0; rfl
  · rw [bigDigits, if_neg h0, natToChars, if_neg h0,
      natToCharsAux_eq radix hr n n [] le_rfl, List.append_nil, List.length_map]

/-- `read_number` on the canonical digit text of `n` followed by a
non-digit boundary consumes exactly that text and returns `n`. -/
theorem readNumber_natToChars {radix : Nat} (hr : 2 ≤ radix) (hr16 : radix ≤ 16)
    {maxVal : Nat} (maxDigits : Option Nat) (azp : Bool) (n : Nat) {rest : List Char}
    (hn : n ≤ maxVal) (hlim : withinLimit maxDigits (natToChars radix n).length)
    (hrest : notDigitAt radix rest) :
    readNumber radix maxVal maxDigits azp (natToChars radix n ++ rest) = some (n, rest) := by
  have hr1 : 1 < radix := hr
  have hchars : natToChars radix n ++ rest = (bigDigits radix n).map natToDigitChar ++ rest := by
    rw [natToChars_eq_map_bigDigits radix n hr1]
  have hcons := readNumberAux_consume hr hr16 maxVal maxDigits (bigDigits radix n) rest 0 0
    (bigDigits_lt radix n hr1) hrest
    (by rw [hornerDigits_bigDigits]; exact hn)
    (by rw [Nat.zero_add, bigDigits_length n hr1]; exact hlim)
  rw [readNumber, hchars, hcons]
  simp only [hornerDigits_bigDigits, Nat.zero_add]
  have hlen0 : (bigDigits radix n).length ≠ 0 := by
    rw [bigDigits]
    by_cases h0 : n = 0
    · simp [h0]
    · rw [if_neg h0]
      simp only [ne_eq, List.length_reverse, List.length_eq_zero]
      exact Nat.digits_ne_nil_iff_ne_zero.mpr h0
  rw [if_neg hlen0]
  by_cases hlz : ((bigDigits radix n).map natToDigitChar ++ rest).head? = some '0'
  · have hne : (bigDigits radix n).map natToDigitChar ≠ [] := by
      simp only [ne_eq, List.map_eq_nil_iff]
      intro hnil
      exact hlen0 (by rw [hnil]; rfl)
    rw [List.head?_append_of_ne_nil _ hne] at hlz
    have hn0 : n = 0 := natToChars_head_zero hr1 hr16
      (by rw [natToChars_eq_map_bigDigits radix n hr1]; exact hlz)
    subst hn0
    have : (bigDigits radix 0).length = 1 := rfl
    rw [this]
    simp
  · rw [if_neg (by
      intro hcontra
      exact hlz hcontra.2.1)]

/-! ## `read_ipv4_addr` round-trip and failure conditions -/

theorem charToDigit_colon (radix : Nat) : charToDigit radix ':' = none := by
  rw [charToDigit]
  rfl

theorem charToDigit_dot (radix : Nat) : charToDigit radix '.' = none := by
  rw [charToDigit]
  rfl

theorem notDigitAt_colon (radix : Nat) (l : List Char) : notDigitAt radix (':' :: l) :=
  notDigitAt_cons (charToDigit_colon radix) l

/-- `read_number` consumes exactly the maximal digit prefix. -/
theorem readNumberAux_rest (radix maxVal : Nat) (maxDigits : Option Nat) :
    ∀ (l : List Char) (acc count v c : Nat) (rest : List Char),
      readNumberAux radix maxVal maxDigits l acc count = some (v, c, rest) →
      rest = l.dropWhile (fun ch => (charToDigit radix ch).isSome) := by
  intro l
  induction l with
  | nil =>
    intro acc count v c rest h
    rw [readNumberAux] at h
    cases h
    rfl
  | cons ch r ih =>
    intro acc count v c rest h
    rw [readNumberAux] at h
    cases hcd : charToDigit radix ch with
    | none =>
      rw [hcd] at h
      simp only [Option.elim_none, Option.some.injEq, Prod.mk.injEq] at h
      obtain ⟨-, -, h3⟩ := h
      rw [← h3, List.dropWhile_cons_of_neg (by simp [hcd])]
    | some d =>
      rw [hcd] at h
      simp only [Option.elim_some] at h
      rw [List.dropWhile_cons_of_pos (by rw [hcd]; rfl)]
      by_cases h1 : digitLimitExceeded maxDigits (count + 1) = true
      · rw [if_pos h1] at h; cases h
      · rw [if_neg h1] at h
        by_cases h2 : maxVal < acc * radix + d
        · rw [if_pos h2] at h; cases h
        · rw [if_neg h2] at h
          exact ih _ _ _ _ _ h

theorem readNumber_rest (radix maxVal : Nat) (maxDigits : Option Nat) (azp : Bool)
    (l : List Char) (v : Nat) (rest : List Char)
    (h : readNumber radix maxVal maxDigits azp l = some (v, rest)) :
    rest = l.dropWhile (fun ch => (charToDigit radix ch).isSome) := by
  rw [readNumber] at h
  cases haux : readNumberAux radix maxVal maxDigits l 0 0 with
  | none => rw [haux] at h; exact absurd h (by simp)
  | some t =>
    obtain ⟨v', c', rest'⟩ := t
    rw [haux] at h
    simp only at h
    by_cases h1 : c' = 0
    · rw [if_pos h1] at h; cases h
    · rw [if_neg h1] at h
      by_cases h2 : ¬azp = true ∧ l.head? = some '0' ∧ 1 < c'
      · rw [if_pos h2] at h; cases h
      · rw [if_neg h2] at h
        cases h
        exact readNumberAux_rest radix maxVal maxDigits l 0 0 _ _ _ haux

/-- A successful leading `read_number` leaves a suffix of the input. -/
theorem dropWhile_no_mem {α : Type} (p : α → Bool) (l : List α) (a : α)
    (ha : a ∉ l) : a ∉ l.dropWhile p := by
  intro hmem
  exact ha ((List.dropWhile_sublist p).mem hmem)

theorem readGivenChar_nil (c : Char) : readGivenChar c [] = none := rfl

theorem readGivenChar_cons (c x : Char) (r : List Char) :
    readGivenChar c (x :: r) = if x = c then some r else none := rfl

theorem readIpv4_none_of_no_dot {l : List Char} (h : '.' ∉ l) : readIpv4 l = none := by
  rw [readIpv4]
  cases h1 : readNumber 10 255 (some 3) false l with
  | none => rfl
  | some t =>
    obtain ⟨a, r1⟩ := t
    have hr1 : r1 = l.dropWhile (fun ch => (charToDigit 10 ch).isSome) :=
      readNumber_rest 10 255 (some 3) false l a r1 h1
    have hnd : '.' ∉ r1 := by
      rw [hr1]; exact dropWhile_no_mem _ l '.' h
    cases r1 with
    | nil => rfl
    | cons c r =>
      have hcne : ¬c = '.' := fun hc => hnd (hc ▸ List.mem_cons_self c r)
      have hg : readGivenChar '.' (c :: r) = none := by
        rw [readGivenChar_cons, if_neg hcne]
      simp only [hg]

theorem readIpv4_none_of_notDigit {l : List Char} (h : notDigitAt 10 l) :
    readIpv4 l = none := by
  rw [readIpv4, readNumber_none_of_notDigit 10 255 (some 3) false h]

/-- `read_ipv4_addr` on the canonical dotted-quad text of in-range
octets followed by a non-decimal-digit boundary. -/
theorem readIpv4_display {a b c d : Nat} (ha : a < 256) (hb : b < 256) (hc : c < 256)
    (hd : d < 256) {rest : List Char} (hrest : notDigitAt 10 rest) :
    readIpv4 (ipv4Chars a b c d ++ rest) = some ((a, b, c, d), rest) := by
  have hlen : ∀ x : Nat, x < 256 → withinLimit (some 3) (natToChars 10 x).length := by
    intro x hx
    exact natToChars_length_le (by omega) (by omega) (by omega)
  have hdotrest : ∀ r : List Char, notDigitAt 10 ('.' :: r) :=
    fun r => notDigitAt_cons (charToDigit_dot 10) r
  rw [ipv4Chars]
  rw [show decChars a ++ '.' :: decChars b ++ '.' :: decChars c ++ '.' :: decChars d ++ rest =
    natToChars 10 a ++ ('.' :: (natToChars 10 b ++ ('.' :: (natToChars 10 c ++
      ('.' :: (natToChars 10 d ++ rest)))))) by
    simp [decChars, List.append_assoc]]
  rw [readIpv4]
  simp only [readNumber_natToChars (by omega : 2 ≤ 10) (by omega : 10 ≤ 16) (some 3) false a
      (show a ≤ 255 by omega) (hlen a ha) (hdotrest _),
    readNumber_natToChars (by omega : 2 ≤ 10) (by omega : 10 ≤ 16) (some 3) false b
      (show b ≤ 255 by omega) (hlen b hb) (hdotrest _),
    readNumber_natToChars (by omega : 2 ≤ 10) (by omega : 10 ≤ 16) (some 3) false c
      (show c ≤ 255 by omega) (hlen c hc) (hdotrest _),
    readNumber_natToChars (by omega : 2 ≤ 10) (by omega : 10 ≤ 16) (some 3) false d
      (show d ≤ 255 by omega) (hlen d hd) hrest,
    readGivenChar_cons, eq_self_iff_true, if_true]

/-! ## Character-class facts about the display text -/

theorem natToDigitChar_ne_dot : ∀ d, d < 16 → natToDigitChar d ≠ '.' := by decide

theorem hexChars_no_dot (g : Nat) : '.' ∉ hexChars g := by
  intro hmem
  obtain ⟨d, hd, hc⟩ := natToChars_mem (by omega : (1:Nat) < 16) '.' hmem
  exact natToDigitChar_ne_dot d hd hc.symm

theorem sepGroups_no_dot : ∀ gs : List Nat, '.' ∉ sepGroups gs := by
  intro gs
  induction gs with
  | nil => simp [sepGroups]
  | cons g gs ih =>
    cases gs with
    | nil => exact hexChars_no_dot g
    | cons g' gs' =>
      intro hmem
      rw [show sepGroups (g :: g' :: gs') = hexChars g ++ ':' :: sepGroups (g' :: gs')
        from rfl] at hmem
      rcases List.mem_append.mp hmem with h | h
      · exact hexChars_no_dot g h
      · rcases List.mem_cons.mp h with h' | h'
        · cases h'
        · exact ih h'

/-- What the head parser may stop against: end of input or a `::`. -/
def stopOk (l : List Char) : Prop :=
  l = [] ∨ ∃ l', l = ':' :: ':' :: l'

theorem notDigitAt_of_stopOk {radix : Nat} {l : List Char} (h : stopOk l) :
    notDigitAt radix l := by
  rcases h with rfl | ⟨l', rfl⟩
  · exact notDigitAt_nil radix
  · exact notDigitAt_colon radix _

theorem readIpv4_stop {l : List Char} (h : stopOk l) : readIpv4 l = none :=
  readIpv4_none_of_notDigit (notDigitAt_of_stopOk h)

/-- Empty, or beginning with a `:`. -/
def colonStart (l : List Char) : Prop :=
  l = [] ∨ ∃ r, l = ':' :: r

theorem notDigitAt_of_colonStart {radix : Nat} {l : List Char} (h : colonStart l) :
    notDigitAt radix l := by
  rcases h with rfl | ⟨r, rfl⟩
  · exact notDigitAt_nil radix
  · exact notDigitAt_colon radix r

theorem colonStart_of_stopOk {l : List Char} (h : stopOk l) : colonStart l := by
  rcases h with rfl | ⟨l', rfl⟩
  · exact Or.inl rfl
  · exact Or.inr ⟨':' :: l', rfl⟩

theorem readSeparated_stop {β : Type} (inner : List Char → Option (β × List Char))
    (hinner : ∀ l', colonStart l' → inner l' = none)
    {l : List Char} (h : stopOk l) (first : Bool) :
    readSeparated first inner l = none := by
  rw [readSeparated]
  cases first with
  | true => rw [if_pos rfl]; exact hinner l (colonStart_of_stopOk h)
  | false =>
    rw [if_neg Bool.false_ne_true]
    rcases h with rfl | ⟨l', rfl⟩
    · rw [readGivenChar_nil]
    · rw [readGivenChar_cons, if_pos rfl]
      exact hinner (':' :: l') (Or.inr ⟨l', rfl⟩)

theorem readIpv4_colonStart {l : List Char} (h : colonStart l) : readIpv4 l = none :=
  readIpv4_none_of_notDigit (notDigitAt_of_colonStart h)

theorem readNumber16_colonStart {l : List Char} (h : colonStart l) :
    readNumber 16 65535 (some 4) true l = none :=
  readNumber_none_of_notDigit 16 65535 (some 4) true (notDigitAt_of_colonStart h)

theorem readGroupsGo_stop {l : List Char} (h : stopOk l) :
    ∀ (slots : Nat) (first : Bool) (acc : List Nat),
      readGroupsGo slots first l acc = (acc, false, l) := by
  intro slots first acc
  cases slots with
  | zero => rfl
  | succ s =>
    rw [readGroupsGo]
    have hipv4 : (if 1 ≤ s then readSeparated first readIpv4 l else none) = none := by
      by_cases hs : 1 ≤ s
      · rw [if_pos hs]
        exact readSeparated_stop readIpv4 (fun l' hl' => readIpv4_colonStart hl') h first
      · rw [if_neg hs]
    have hgrp : readSeparated first (readNumber 16 65535 (some 4) true) l = none :=
      readSeparated_stop _ (fun l' hl' => readNumber16_colonStart hl') h first
    rw [hipv4, hgrp]

theorem readSeparated_true {β : Type} (inner : List Char → Option (β × List Char))
    (l : List Char) : readSeparated true inner l = inner l := by
  rw [readSeparated, if_pos rfl]

theorem readSeparated_false_colon {β : Type} (inner : List Char → Option (β × List Char))
    (l : List Char) : readSeparated false inner (':' :: l) = inner l := by
  rw [readSeparated, if_neg Bool.false_ne_true, readGivenChar_cons, if_pos rfl]

/-- The text the group loop is run on: at a non-initial position the
pending `:` separator is still in front. -/
def sepInput (first : Bool) (gs : List Nat) (rest : List Char) : List Char :=
  match first, gs with
  | true, gs => sepGroups gs ++ rest
  | false, [] => rest
  | false, gs => ':' :: (sepGroups gs ++ rest)

theorem sepInput_nil (first : Bool) (rest : List Char) : sepInput first [] rest = rest := by
  cases first <;> rfl

theorem sepGroups_cons_append (g : Nat) (gs : List Nat) (rest : List Char) :
    sepGroups (g :: gs) ++ rest = hexChars g ++ sepInput false gs rest := by
  cases gs with
  | nil => rfl
  | cons g' gs' =>
    show (hexChars g ++ ':' :: sepGroups (g' :: gs')) ++ rest =
      hexChars g ++ (':' :: (sepGroups (g' :: gs') ++ rest))
    rw [List.append_assoc]
    rfl

theorem sepInput_no_dot {rest : List Char} (h : '.' ∉ rest) (gs : List Nat) :
    '.' ∉ sepInput false gs rest := by
  cases gs with
  | nil => exact h
  | cons g gs' =>
    rw [show sepInput false (g :: gs') rest = ':' :: (sepGroups (g :: gs') ++ rest) from rfl]
    intro hmem
    rcases List.mem_cons.mp hmem with h' | h'
    · cases h'
    · rcases List.mem_append.mp h' with h'' | h''
      · exact sepGroups_no_dot _ h''
      · exact h h''

theorem sepInput_notDigit {rest : List Char} (h : stopOk rest) (gs : List Nat) :
    notDigitAt 16 (sepInput false gs rest) := by
  cases gs with
  | nil => exact notDigitAt_of_stopOk h
  | cons g gs' => exact notDigitAt_colon 16 _

/-- The group loop consumes exactly the `:`-separated hex groups in
front of a `::` or the end of input. -/
theorem readGroupsGo_consume :
    ∀ (gs : List Nat) (slots : Nat) (first : Bool) (acc : List Nat) (rest : List Char),
      gs.length ≤ slots →
      (∀ g ∈ gs, g < 65536) →
      '.' ∉ rest →
      stopOk rest →
      readGroupsGo slots first (sepInput first gs rest) acc = (acc ++ gs, false, rest) := by
  intro gs
  induction gs with
  | nil =>
    intro slots first acc rest _ _ _ hstop
    rw [sepInput_nil, readGroupsGo_stop hstop slots first acc, List.append_nil]
  | cons g gs' ih =>
    intro slots first acc rest hslots hlt hnd hstop
    cases slots with
    | zero => simp at hslots
    | succ s =>
      have hg : g < 65536 := hlt g (List.mem_cons_self g gs')
      have hX : '.' ∉ hexChars g ++ sepInput false gs' rest := by
        intro hmem
        rcases List.mem_append.mp hmem with h' | h'
        · exact hexChars_no_dot g h'
        · exact sepInput_no_dot hnd gs' h'
      have hipv4X : readIpv4 (hexChars g ++ sepInput false gs' rest) = none :=
        readIpv4_none_of_no_dot hX
      have hgrpX : readNumber 16 65535 (some 4) true
          (hexChars g ++ sepInput false gs' rest) = some (g, sepInput false gs' rest) := by
        rw [show hexChars g = natToChars 16 g from rfl]
        exact readNumber_natToChars (by omega) (by omega) (some 4) true g
          (by omega)
          (natToChars_length_le (by omega) (by omega) (by omega : g < 16 ^ 4))
          (sepInput_notDigit hstop gs')
      have hrec := ih s false (acc ++ [g]) rest (by simp at hslots; omega)
        (fun x hx => hlt x (List.mem_cons_of_mem g hx)) hnd hstop
      have hfinal : (acc ++ [g]) ++ gs' = acc ++ (g :: gs') := by simp
      cases first with
      | true =>
        rw [show sepInput true (g :: gs') rest = hexChars g ++ sepInput false gs' rest from
          sepGroups_cons_append g gs' rest]
        rw [readGroupsGo]
        have h1 : (if 1 ≤ s then readSeparated true readIpv4
            (hexChars g ++ sepInput false gs' rest) else none) = none := by
          by_cases hs : 1 ≤ s
          · rw [if_pos hs, readSeparated_true, hipv4X]
          · rw [if_neg hs]
        rw [h1]
        simp only [readSeparated_true, hgrpX]
        rw [hrec, hfinal]
      | false =>
        rw [show sepInput false (g :: gs') rest =
          ':' :: (hexChars g ++ sepInput false gs' rest) by
          rw [show sepInput false (g :: gs') rest = ':' :: (sepGroups (g :: gs') ++ rest)
            from rfl, sepGroups_cons_append g gs' rest]]
        rw [readGroupsGo]
        have h1 : (if 1 ≤ s then readSeparated false readIpv4
            (':' :: (hexChars g ++ sepInput false gs' rest)) else none) = none := by
          by_cases hs : 1 ≤ s
          · rw [if_pos hs, readSeparated_false_colon, hipv4X]
          · rw [if_neg hs]
        rw [h1]
        simp only [readSeparated_false_colon, hgrpX]
        rw [hrec, hfinal]

/-! ## The zero span chosen by the IPv6 display is a run of zeros -/

/-- `(p, l)` describes zero segments `p, …, p+l-1` of `segs`. -/
def IsZeroRun (segs : List Nat) (span : Nat × Nat) : Prop :=
  span.1 + span.2 ≤ segs.length ∧
  ∀ j, span.1 ≤ j → j < span.1 + span.2 → segs.getD j 0 = 0

theorem zeroSpanAux_spec (segs : List Nat) :
    ∀ (rem : List Nat) (i : Nat) (cur lon : Nat × Nat),
      rem = segs.drop i →
      (cur.2 ≠ 0 → cur.1 + cur.2 = i ∧ IsZeroRun segs cur) →
      (lon.2 ≠ 0 → IsZeroRun segs lon) →
      ((zeroSpanAux rem i cur lon).2 ≠ 0 → IsZeroRun segs (zeroSpanAux rem i cur lon)) := by
  intro rem
  induction rem with
  | nil =>
    intro i cur lon _ _ hlon
    exact hlon
  | cons g rem' ih =>
    intro i cur lon hdrop hcur hlon
    have hi : i < segs.length := by
      by_contra hge
      rw [List.drop_eq_nil_iff_le.mpr (by omega)] at hdrop
      cases hdrop
    have hgi : segs.getD i 0 = g := by
      rw [List.getD_eq_getElem?_getD, show segs[i]? = (segs.drop i)[0]? by
        rw [List.getElem?_drop, Nat.add_zero], ← hdrop]
      simp
    have hdrop' : rem' = segs.drop (i + 1) := by
      rw [← List.tail_drop, ← hdrop]
      rfl
    rw [zeroSpanAux]
    by_cases hg : g = 0
    · rw [if_pos hg]
      have hcur' : (Nat.succ (cur.2) ≠ 0 →
          (if cur.2 = 0 then i else cur.1) + (cur.2 + 1) = i + 1 ∧
          IsZeroRun segs (if cur.2 = 0 then i else cur.1, cur.2 + 1)) := by
        intro _
        by_cases hc2 : cur.2 = 0
        · rw [if_pos hc2, hc2]
          refine ⟨rfl, by omega, ?_⟩
          intro j hj1 hj2
          have : j = i := by omega
          rw [this, hgi, hg]
        · rw [if_neg hc2]
          obtain ⟨hsum, hle, hrun⟩ := hcur hc2
          refine ⟨by omega, by omega, ?_⟩
          intro j hj1 hj2
          by_cases hji : j = i
          · rw [hji, hgi, hg]
          · exact hrun j hj1 (by omega)
      refine ih (i + 1) _ _ hdrop' (fun h2 => hcur' (by simpa using h2)) ?_
      intro hlon2
      by_cases hcmp : lon.2 < cur.2 + 1
      · rw [if_pos hcmp] at hlon2 ⊢
        exact (hcur' (by omega)).2
      · rw [if_neg hcmp] at hlon2 ⊢
        exact hlon hlon2
    · rw [if_neg hg]
      exact ih (i + 1) _ _ hdrop' (by intro h2; cases h2 rfl) hlon

theorem zeroSpan_isZeroRun (segs : List Nat) (h : (zeroSpan segs).2 ≠ 0) :
    IsZeroRun segs (zeroSpan segs) := by
  exact zeroSpanAux_spec segs segs 0 (0, 0) (0, 0) rfl
    (by intro h2; cases h2 rfl) (by intro h2; cases h2 rfl) h

/-- Reassembling a list from the pieces around a run of zeros. -/
theorem take_replicate_drop {segs : List Nat} {s len : Nat}
    (hle : s + len ≤ segs.length)
    (hzero : ∀ j, s ≤ j → j < s + len → segs.getD j 0 = 0) :
    segs.take s ++ List.replicate len 0 ++ segs.drop (s + len) = segs := by
  have hmid : (segs.drop s).take len = List.replicate len 0 := by
    rw [List.eq_replicate_iff]
    constructor
    · rw [List.length_take, List.length_drop]
      omega
    · intro b hb
      obtain ⟨j, hj, hget⟩ := List.mem_iff_getElem.mp hb
      have hjlen : j < len := by
        rw [List.length_take, List.length_drop] at hj
        omega
      have hjs : s + j < segs.length := by omega
      rw [List.getElem_take, List.getElem_drop] at hget
      have := hzero (s + j) (by omega) (by omega)
      rw [List.getD_eq_getElem?_getD, List.getElem?_eq_getElem hjs] at this
      rw [← hget]
      exact this
  have hdrop : segs.drop (s + len) = (segs.drop s).drop len := by
    rw [List.drop_drop]
  rw [List.append_assoc, ← hmid, hdrop, List.take_append_drop, List.take_append_drop]

/-! ## `read_ipv6_addr` recovers every displayed address -/

theorem stopOk_nil : stopOk ([] : List Char) := Or.inl rfl

theorem stopOk_colons (l : List Char) : stopOk (':' :: ':' :: l) := Or.inr ⟨l, rfl⟩

theorem no_dot_colons_sepGroups (gs : List Nat) : '.' ∉ ':' :: ':' :: sepGroups gs := by
  intro hmem
  rcases List.mem_cons.mp hmem with h | h
  · cases h
  · rcases List.mem_cons.mp h with h' | h'
    · cases h'
    · exact sepGroups_no_dot gs h'

/-- Head-parse of a full, uncompressed display: all 8 groups. -/
theorem readIpv6_full (segs : List Nat) (h8 : segs.length = 8)
    (hlt : ∀ g ∈ segs, g < 65536) :
    readIpv6 (sepGroups segs) = some (segs, []) := by
  have hcons := readGroupsGo_consume segs 8 true [] [] (by omega)
    hlt (by simp) stopOk_nil
  rw [sepInput, List.append_nil] at hcons
  rw [readIpv6, hcons]
  simp only [List.nil_append, h8, eq_self_iff_true, if_true]

/-- Parse of a compressed display (`head :: tail` around a zero run). -/
theorem readIpv6_compressed (segs : List Nat) (h8 : segs.length = 8)
    (hlt : ∀ g ∈ segs, g < 65536) (s len : Nat) (hlen2 : 2 ≤ len)
    (hle : s + len ≤ 8)
    (hzero : ∀ j, s ≤ j → j < s + len → segs.getD j 0 = 0) :
    readIpv6 (sepGroups (segs.take s) ++ ':' :: ':' :: sepGroups (segs.drop (s + len))) =
      some (segs, []) := by
  have htakelen : (segs.take s).length = s := by
    rw [List.length_take]
    omega
  have hdroplen : (segs.drop (s + len)).length = 8 - (s + len) := by
    rw [List.length_drop, h8]
  have hhead := readGroupsGo_consume (segs.take s) 8 true []
    (':' :: ':' :: sepGroups (segs.drop (s + len)))
    (by omega) (fun g hg => hlt g (List.mem_of_mem_take hg))
    (no_dot_colons_sepGroups _) (stopOk_colons _)
  rw [sepInput] at hhead
  have htail := readGroupsGo_consume (segs.drop (s + len)) (8 - (s + 1)) true [] []
    (by omega) (fun g hg => hlt g (List.mem_of_mem_drop hg)) (by simp) stopOk_nil
  rw [sepInput, List.append_nil] at htail
  rw [readIpv6, hhead]
  simp only [List.nil_append, htakelen]
  rw [if_neg (by omega : ¬s = 8), if_neg Bool.false_ne_true]
  simp only [readGivenChar_cons, eq_self_iff_true, if_true, htail, List.nil_append,
    htakelen, hdroplen]
  rw [show 8 - s - (8 - (s + len)) = len by omega,
    take_replicate_drop (by omega) hzero]

theorem hexChars_ffff : hexChars 65535 = ['f', 'f', 'f', 'f'] := by decide

theorem charToDigit10_f : charToDigit 10 'f' = none := by decide

/-- Parse of the IPv4-mapped display `::ffff:a.b.c.d`. -/
theorem readIpv6_mapped (g h : Nat) (hg : g < 65536) (hh : h < 65536) :
    readIpv6 (':' :: ':' :: 'f' :: 'f' :: 'f' :: 'f' :: ':' ::
      ipv4Chars (g / 256) (g % 256) (h / 256) (h % 256)) =
      some ([0, 0, 0, 0, 0, 65535, g, h], []) := by
  set I := ipv4Chars (g / 256) (g % 256) (h / 256) (h % 256) with hI
  have hIval : readIpv4 I = some ((g / 256, g % 256, h / 256, h % 256), []) := by
    rw [show I = ipv4Chars (g / 256) (g % 256) (h / 256) (h % 256) ++ [] by
      rw [List.append_nil]]
    exact readIpv4_display (by omega) (by omega) (by omega) (by omega) (notDigitAt_nil 10)
  have hffI : 'f' :: 'f' :: 'f' :: 'f' :: ':' :: I = hexChars 65535 ++ ':' :: I := by
    rw [hexChars_ffff]
    rfl
  have hipv4ff : readIpv4 ('f' :: 'f' :: 'f' :: 'f' :: ':' :: I) = none :=
    readIpv4_none_of_notDigit (notDigitAt_cons charToDigit10_f _)
  have hnum : readNumber 16 65535 (some 4) true ('f' :: 'f' :: 'f' :: 'f' :: ':' :: I) =
      some (65535, ':' :: I) := by
    rw [hffI, show hexChars 65535 = natToChars 16 65535 from rfl]
    exact readNumber_natToChars (by omega) (by omega) (some 4) true 65535 (by omega)
      (by rw [show natToChars 16 65535 = ['f', 'f', 'f', 'f'] from hexChars_ffff]; exact
        (by omega : (4:Nat) ≤ 4))
      (notDigitAt_colon 16 I)
  have htail : readGroupsGo 7 true ('f' :: 'f' :: 'f' :: 'f' :: ':' :: I) [] =
      ([65535, g, h], true, []) := by
    rw [readGroupsGo]
    rw [if_pos (by omega : 1 ≤ 6), readSeparated_true, hipv4ff]
    simp only [readSeparated_true, hnum]
    rw [readGroupsGo]
    rw [if_pos (by omega : 1 ≤ 5), readSeparated_false_colon, hIval]
    simp only [List.nil_append]
    rw [show (g / 256) * 256 + g % 256 = g by omega,
      show (h / 256) * 256 + h % 256 = h by omega]
    rfl
  have hstop : readGroupsGo 8 true
      (':' :: ':' :: 'f' :: 'f' :: 'f' :: 'f' :: ':' :: I) [] =
      ([], false, ':' :: ':' :: 'f' :: 'f' :: 'f' :: 'f' :: ':' :: I) :=
    readGroupsGo_stop (stopOk_colons _) 8 true []
  rw [readIpv6]
  simp only [hstop]
  rw [if_neg (by decide : ¬([] : List Nat).length = 8), if_neg Bool.false_ne_true]
  simp only [readGivenChar_cons, eq_self_iff_true, if_true]
  rw [show (8 : Nat) - (([] : List Nat).length + 1) = 7 from rfl, htail]
  rfl

theorem list_length_eq_eight {α : Type} {l : List α} (h : l.length = 8) :
    ∃ a b c d e f g hh, l = [a, b, c, d, e, f, g, hh] := by
  rcases l with _ | ⟨a, _ | ⟨b, _ | ⟨c, _ | ⟨d, _ |
    ⟨e, _ | ⟨f, _ | ⟨g, _ | ⟨hh, _ | ⟨i, t⟩⟩⟩⟩⟩⟩⟩⟩⟩ <;> simp_all

/-- Rust's `Ipv6Addr` parser recovers every address from its own
display text, consuming it entirely. -/
theorem readIpv6_display (segs : List Nat) (h8 : segs.length = 8)
    (hlt : ∀ g ∈ segs, g < 65536) :
    readIpv6 (ipv6Chars segs) = some (segs, []) := by
  by_cases hm : isMapped segs = true
  · obtain ⟨s0, s1, s2, s3, s4, s5, s6, s7, rfl⟩ := list_length_eq_eight h8
    rw [isMapped] at hm
    simp only [Bool.and_eq_true, beq_iff_eq] at hm
    obtain ⟨⟨⟨⟨⟨rfl, rfl⟩, rfl⟩, rfl⟩, rfl⟩, rfl⟩ := hm
    have hs6 : s6 < 65536 := hlt s6 (by simp)
    have hs7 : s7 < 65536 := hlt s7 (by simp)
    have hdisp : ipv6Chars [0, 0, 0, 0, 0, 65535, s6, s7] =
        ':' :: ':' :: 'f' :: 'f' :: 'f' :: 'f' :: ':' ::
          ipv4Chars (s6 / 256) (s6 % 256) (s7 / 256) (s7 % 256) := by
      rw [ipv6Chars, if_pos (by rw [isMapped]; simp)]
      rfl
    rw [hdisp]
    exact readIpv6_mapped s6 s7 hs6 hs7
  · rw [ipv6Chars, if_neg hm]
    by_cases hspan : 1 < (zeroSpan segs).2
    · rw [if_pos hspan]
      obtain ⟨hle, hzero⟩ := zeroSpan_isZeroRun segs (by omega)
      rw [h8] at hle
      exact readIpv6_compressed segs h8 hlt (zeroSpan segs).1 (zeroSpan segs).2
        (by omega) hle hzero
    · rw [if_neg hspan]
      exact readIpv6_full segs h8 hlt

theorem ipv6Chars_no_dot_unmapped {segs : List Nat} (hm : ¬isMapped segs = true) :
    '.' ∉ ipv6Chars segs := by
  rw [ipv6Chars, if_neg hm]
  by_cases hspan : 1 < (zeroSpan segs).2
  · rw [if_pos hspan]
    intro hmem
    rcases List.mem_append.mp hmem with h | h
    · exact sepGroups_no_dot _ h
    · exact no_dot_colons_sepGroups _ h
  · rw [if_neg hspan]
    exact sepGroups_no_dot segs

theorem readIpv4_ipv6Chars (segs : List Nat) : readIpv4 (ipv6Chars segs) = none := by
  by_cases hm : isMapped segs = true
  · rw [ipv6Chars, if_pos hm]
    exact readIpv4_none_of_notDigit (notDigitAt_colon 10 _)
  · exact readIpv4_none_of_no_dot (ipv6Chars_no_dot_unmapped hm)

/-- Rust's `IpAddr` parser recovers every valid address from its own
display text. -/
theorem parseIpAddrChars_roundtrip (ip : IpAddrM) (h : ip.valid) :
    parseIpAddrChars (ipAddrToChars ip) = some ip := by
  cases ip with
  | v4 a b c d =>
    obtain ⟨ha, hb, hc, hd⟩ := h
    have h4 : readIpv4 (ipv4Chars a b c d) = some ((a, b, c, d), []) := by
      rw [show ipv4Chars a b c d = ipv4Chars a b c d ++ [] by rw [List.append_nil]]
      exact readIpv4_display ha hb hc hd (notDigitAt_nil 10)
    rw [parseIpAddrChars, ipAddrToChars, readIpAddr, h4]
  | v6 segs =>
    obtain ⟨h8, hlt⟩ := h
    rw [parseIpAddrChars, ipAddrToChars, readIpAddr, readIpv4_ipv6Chars segs,
      readIpv6_display segs h8 hlt]

/-! ## The display text contains no whitespace, so `trim` is a no-op -/

theorem natToDigitChar_not_ws : ∀ d, d < 16 → rustIsWhitespace (natToDigitChar d) = false := by
  decide

theorem natToChars_not_ws {radix n : Nat} (hr : 1 < radix) (hr16 : radix ≤ 16) :
    ∀ c ∈ natToChars radix n, rustIsWhitespace c = false := by
  intro c hc
  obtain ⟨d, hd, rfl⟩ := natToChars_mem hr c hc
  exact natToDigitChar_not_ws d (by omega)

theorem colon_not_ws : rustIsWhitespace ':' = false := by decide

theorem dot_not_ws : rustIsWhitespace '.' = false := by decide

theorem ipv4Chars_not_ws {a b c d : Nat} :
    ∀ ch ∈ ipv4Chars a b c d, rustIsWhitespace ch = false := by
  intro ch hch
  have hdec : ∀ n : Nat, ∀ x ∈ decChars n, rustIsWhitespace x = false := by
    intro n x hx
    exact natToChars_not_ws (by omega) (by omega) x hx
  have hsplit : ch ∈ decChars a ∨ ch ∈ decChars b ∨ ch ∈ decChars c ∨
      ch ∈ decChars d ∨ ch = '.' := by
    rw [ipv4Chars] at hch
    simp only [List.mem_append, List.mem_cons] at hch
    tauto
  rcases hsplit with h | h | h | h | rfl
  · exact hdec a ch h
  · exact hdec b ch h
  · exact hdec c ch h
  · exact hdec d ch h
  · exact dot_not_ws

theorem sepGroups_not_ws : ∀ (gs : List Nat), ∀ c ∈ sepGroups gs,
    rustIsWhitespace c = false := by
  intro gs
  induction gs with
  | nil => intro c hc; cases hc
  | cons g gs' ih =>
    cases gs' with
    | nil =>
      intro c hc
      exact natToChars_not_ws (by omega) (by omega) c hc
    | cons g' gs'' =>
      intro c hc
      rw [show sepGroups (g :: g' :: gs'') = hexChars g ++ ':' :: sepGroups (g' :: gs'')
        from rfl] at hc
      rcases List.mem_append.mp hc with h | h
      · exact natToChars_not_ws (by omega) (by omega) c h
      · rcases List.mem_cons.mp h with rfl | h
        · exact colon_not_ws
        · exact ih c h

theorem ipAddrToChars_not_ws (ip : IpAddrM) :
    ∀ c ∈ ipAddrToChars ip, rustIsWhitespace c = false := by
  cases ip with
  | v4 a b c d => exact ipv4Chars_not_ws
  | v6 segs =>
    intro c hc
    rw [ipAddrToChars, ipv6Chars] at hc
    by_cases hm : isMapped segs = true
    · rw [if_pos hm] at hc
      rcases List.mem_cons.mp hc with rfl | hc; · exact colon_not_ws
      rcases List.mem_cons.mp hc with rfl | hc; · exact colon_not_ws
      rcases List.mem_cons.mp hc with rfl | hc; · decide
      rcases List.mem_cons.mp hc with rfl | hc; · decide
      rcases List.mem_cons.mp hc with rfl | hc; · decide
      rcases List.mem_cons.mp hc with rfl | hc; · decide
      rcases List.mem_cons.mp hc with rfl | hc; · exact colon_not_ws
      exact ipv4Chars_not_ws c hc
    · rw [if_neg hm] at hc
      by_cases hspan : 1 < (zeroSpan segs).2
      · rw [if_pos hspan] at hc
        rcases List.mem_append.mp hc with h | h
        · exact sepGroups_not_ws _ c h
        · rcases List.mem_cons.mp h with rfl | h; · exact colon_not_ws
          rcases List.mem_cons.mp h with rfl | h; · exact colon_not_ws
          exact sepGroups_not_ws _ c h
      · rw [if_neg hspan] at hc
        exact sepGroups_not_ws segs c hc

theorem rustTrim_ipAddrToChars (ip : IpAddrM) :
    rustTrim (ipAddrToChars ip) = ipAddrToChars ip :=
  rustTrim_eq_self (ipAddrToChars_not_ws ip)

/-! ## The persistence store (`src/persistence.rs`) -/

/-- The error taxonomy of `persistence.rs` (`CreateError` and `Error`). -/
inductive PersistenceError where
  | createError
  | ioError
  | parseError
  | noFileNames
deriving DecidableEq, Repr

/-- The filesystem the store reads and writes: a map from path text to
file content.  `PathBuf::from(name)` keeps the name text unchanged, and
`to_str` on it returns it, so paths are modelled as their strings. -/
def FileSys : Type := String → Option String

structure Persistence where
  file_paths : List String

/-- `Persistence::new` (line 38): opens (creating) one file per name —
an environment action that succeeds in this model — then fails only when
the name list is empty.  All-or-nothing by construction. -/
def Persistence.new (file_names : List String) : Except PersistenceError Persistence :=
  if file_names.isEmpty then .error .createError else .ok ⟨file_names⟩

/-- `Persistence::match_file_name` (line 59): the first stored path that
textually ends with the key. -/
def Persistence.match_file_name (p : Persistence) (file_name : String) :
    Except PersistenceError String :=
  match p.file_paths.find? (fun fp => file_name.data.isSuffixOf fp.data) with
  | some fp => .ok fp
  | none => .error .noFileNames

/-- `Persistence::replace_ip` (line 76): overwrite the matched file with
`ip.to_string()`. -/
def Persistence.replace_ip (p : Persistence) (fs : FileSys) (ip : IpAddrM)
    (file_name : String) : Except PersistenceError FileSys :=
  match p.match_file_name file_name with
  | .error e => .error e
  | .ok fp => .ok (fun q => if q = fp then some (String.mk (ipAddrToChars ip)) else fs q)

/-- `Persistence::load_ip` (line 83): read the matched file, trim, parse
as an `IpAddr`. -/
def Persistence.load_ip (p : Persistence) (fs : FileSys) (file_name : String) :
    Except PersistenceError IpAddrM :=
  match p.match_file_name file_name with
  | .error e => .error e
  | .ok fp =>
    match fs fp with
    | none => .error .ioError
    | some content =>
      match parseIpAddrChars (rustTrim content.data) with
      | some ip => .ok ip
      | none => .error .parseError

theorem isSuffixOf_self (l : List Char) : l.isSuffixOf l = true := by
  simp [List.isSuffixOf]

/-- C2: for every key of a constructed store and every valid address,
`replace_ip` then `load_ip` through that key returns the address
unchanged, regardless of the other keys the store was built from (both
operations resolve the key through the same `match_file_name`, so even a
suffix-aliased key reads back what it wrote). -/
theorem persistence_roundtrip (keys : List String) (k : String) (ip : IpAddrM)
    (fs : FileSys) (hk : k ∈ keys) (hv : ip.valid) :
    ∃ (store : Persistence) (fs' : FileSys),
      Persistence.new keys = .ok store ∧
      store.replace_ip fs ip k = .ok fs' ∧
      store.load_ip fs' k = .ok ip := by
  have hne : ¬keys.isEmpty = true := by
    cases keys with
    | nil => cases hk
    | cons a l => simp
  refine ⟨⟨keys⟩, ?_⟩
  cases hfind : keys.find? (fun fp => k.data.isSuffixOf fp.data) with
  | none =>
    exact absurd (isSuffixOf_self k.data)
      (by simpa using List.find?_eq_none.mp hfind k hk)
  | some fp0 =>
    have hmatch : Persistence.match_file_name ⟨keys⟩ k = .ok fp0 := by
      rw [Persistence.match_file_name]
      simp only [hfind]
    refine ⟨fun q => if q = fp0 then some (String.mk (ipAddrToChars ip)) else fs q,
      ?_, ?_, ?_⟩
    · rw [Persistence.new, if_neg hne]
    · rw [Persistence.replace_ip, hmatch]
    · rw [Persistence.load_ip, hmatch]
      simp only [eq_self_iff_true, if_true, rustTrim_ipAddrToChars,
        parseIpAddrChars_roundtrip ip hv]

theorem persistence_roundtrip_witness :
    ∃ (store : Persistence) (fs' : FileSys),
      Persistence.new ["DuckDNS_tok_name", "FreeDNS_TOK_ipv4"] = .ok store ∧
      store.replace_ip (fun _ => none) (.v4 192 168 1 7) "FreeDNS_TOK_ipv4" = .ok fs' ∧
      store.load_ip fs' "FreeDNS_TOK_ipv4" = .ok (.v4 192 168 1 7) :=
  persistence_roundtrip ["DuckDNS_tok_name", "FreeDNS_TOK_ipv4"] "FreeDNS_TOK_ipv4"
    (.v4 192 168 1 7) (fun _ => none)
    (by simp)
    ⟨by omega, by omega, by omega, by omega⟩

/-! ## Provider update URL construction (`src/dyn_dns.rs` `update` impls) -/

/-- The string form of one address, `ip.to_string()`. -/
def ipAddrToString (ip : IpAddrM) : String := String.mk (ipAddrToChars ip)

/-- The string form of an `Ipv6Addr` value, used where the code
destructures `IpAddr::V6(ip)` and formats the inner address. -/
def ipv6ToString (segs : List Nat) : String := String.mk (ipv6Chars segs)

/-- `FreeDns::update` (lines 50-58): base URL with the token as the
query string; for a V6 address `&address={addr}` is appended, for V4
nothing is. -/
def freeDnsUpdateUrl (token : String) (ip : IpAddrM) : String :=
  let base := "https://freedns.afraid.org/dynamic/update.php?" ++ token
  match ip with
  | .v4 _ _ _ _ => base
  | .v6 segs => base ++ "&address=" ++ ipv6ToString segs

/-- `DuckDns::update` (lines 115-123): domains and token in the query;
for a V6 address `&ipv6={addr}` is appended, for V4 nothing is. -/
def duckDnsUpdateUrl (name token : String) (ip : IpAddrM) : String :=
  let base := "https://www.duckdns.org/update?domains=" ++ name ++ "&token=" ++ token
  match ip with
  | .v4 _ _ _ _ => base
  | .v6 segs => base ++ "&ipv6=" ++ ipv6ToString segs

/-- `Ovh::update` (lines 197-205): the query pairs passed to the HTTP
client for `https://www.ovh.com/nic/update`; `myip` is always present,
for both versions. -/
def ovhUpdateQuery (subdomain : String) (ip : IpAddrM) : List (String × String) :=
  [("system", "dyndns"), ("hostname", subdomain), ("myip", ipAddrToString ip)]

/-- C8: for an IPv6 update the FreeDns and DuckDns URLs carry the
literal address appended as `&address={addr}` resp. `&ipv6={addr}`;
for an IPv4 update the URLs are exactly the base URLs with no address
parameter appended; the Ovh request carries the address as the `myip`
query parameter for both versions. -/
theorem update_url_address_placement (token name subdomain : String)
    (a b c d : Nat) (segs : List Nat) :
    (freeDnsUpdateUrl token (.v6 segs) =
      "https://freedns.afraid.org/dynamic/update.php?" ++ token ++ "&address=" ++
        ipv6ToString segs) ∧
    (freeDnsUpdateUrl token (.v4 a b c d) =
      "https://freedns.afraid.org/dynamic/update.php?" ++ token) ∧
    (duckDnsUpdateUrl name token (.v6 segs) =
      "https://www.duckdns.org/update?domains=" ++ name ++ "&token=" ++ token ++
        "&ipv6=" ++ ipv6ToString segs) ∧
    (duckDnsUpdateUrl name token (.v4 a b c d) =
      "https://www.duckdns.org/update?domains=" ++ name ++ "&token=" ++ token) ∧
    (∀ ip : IpAddrM, ("myip", ipAddrToString ip) ∈ ovhUpdateQuery subdomain ip) :=
  ⟨rfl, rfl, rfl, rfl, fun ip => by simp [ovhUpdateQuery]⟩

/-! ## The address grabber (`src/ip_grabber.rs`) -/

/-- `ParseError` of `ip_grabber.rs`. -/
inductive ParseErrorM where
  | lenMismatch
  | invalidStr
deriving DecidableEq, Repr

/-- `Error` of `ip_grabber.rs`. -/
inductive GrabErrorM where
  | openFileError
  | readLineError
  | parseError (e : ParseErrorM)
  | noneMatched
  | httpError
  | addrParseError
deriving DecidableEq, Repr

/-- UTF-8 byte length of text, Rust `str::len()`. -/
def utf8Len (l : List Char) : Nat := (l.map Char.utf8Size).sum

/-- Split a character list at a byte offset; `none` when the offset is
past the end or inside a multi-byte character (where Rust slicing
panics). -/
def takeBytes : List Char → Nat → Option (List Char × List Char)
  | l, 0 => some ([], l)
  | [], _ + 1 => none
  | c :: r, n + 1 =>
    if c.utf8Size ≤ n + 1 then
      (takeBytes r (n + 1 - c.utf8Size)).map (fun p => (c :: p.1, p.2))
    else none

/-- Rust `&s[start..stop]`: `none` models the slicing panic. -/
def byteSlice (l : List Char) (start stop : Nat) : Option (List Char) :=
  match takeBytes l start with
  | none => none
  | some (_, rest) =>
    match takeBytes rest (stop - start) with
    | none => none
    | some (mid, _) => some mid

/-- The three ways `IpGrabber::parse_ipv6` can come back. -/
inductive Ipv6ParseOutcome where
  | panicked
  | failed (e : ParseErrorM)
  | parsed (segs : List Nat)
deriving DecidableEq, Repr

/-- The group loop of `parse_ipv6` (lines 137-141): for `i` in `0..8`,
slice bytes `4i..4i+4` (panicking on a char-boundary violation) and
parse them with `u16::from_str_radix(_, 16)`. -/
def parse_ipv6_aux (hex : List Char) : Nat → Nat → List Nat → Ipv6ParseOutcome
  | 0, _, acc => .parsed acc
  | n + 1, i, acc =>
    match byteSlice hex (i * 4) (i * 4 + 4) with
    | none => .panicked
    | some gchars =>
      match fromStrRadix 16 65535 gchars with
      | none => .failed .invalidStr
      | some g => parse_ipv6_aux hex n (i + 1) (acc ++ [g])

/-- `IpGrabber::parse_ipv6` (lines 133-143): a 32-byte length check
(`hex.len()` counts bytes), then eight 4-byte groups. -/
def parse_ipv6 (hex : List Char) : Ipv6ParseOutcome :=
  if utf8Len hex ≠ 32 then .failed .lenMismatch
  else parse_ipv6_aux hex 8 0 []

/-- Rust `str::split_whitespace`: maximal non-whitespace runs. -/
def splitWsAux : List Char → List Char → List (List Char)
  | [], cur => if cur.isEmpty then [] else [cur.reverse]
  | x :: r, cur =>
    if rustIsWhitespace x then
      if cur.isEmpty then splitWsAux r [] else cur.reverse :: splitWsAux r []
    else splitWsAux r (x :: cur)

def split_whitespace (s : String) : List String :=
  (splitWsAux s.data []).map String.mk

/-- The whitespace-separated fields of one `/proc/net/if_inet6` line. -/
def lineParts (line : String) : List String := split_whitespace line

/-- `u8::from_str_radix(parts[3], 16).unwrap_or(0xFF)`. -/
def lineScope (line : String) : Nat :=
  (fromStrRadix 16 255 ((lineParts line).getD 3 "").data).getD 255

/-- `u8::from_str_radix(parts[4], 16).unwrap_or(0xFF)`. -/
def lineFlags (line : String) : Nat :=
  (fromStrRadix 16 255 ((lineParts line).getD 4 "").data).getD 255

/-- The three ways `get_stable_global_ipv6` can come back. -/
inductive V6GrabOutcome where
  | panicked
  | failed (e : GrabErrorM)
  | found (segs : List Nat)
deriving DecidableEq, Repr

def liftParse : Ipv6ParseOutcome → V6GrabOutcome
  | .panicked => .panicked
  | .failed e => .failed (.parseError e)
  | .parsed segs => .found segs

/-- `IpGrabber::get_stable_global_ipv6` (lines 97-131), over the lines
of the interface-address table: skip short lines, lines for other
interfaces, non-global scopes, and temporary/deprecated addresses; on
the first surviving line return `parse_ipv6` of its address field; fail
with `NoneMatched` when no line survives. -/
def get_stable_global_ipv6 (iface : String) : List String → V6GrabOutcome
  | [] => .failed .noneMatched
  | line :: rest =>
    if (lineParts line).length < 6 then get_stable_global_ipv6 iface rest
    else if (lineParts line).getD 5 "" ≠ iface then get_stable_global_ipv6 iface rest
    else if lineScope line ≠ 0 then get_stable_global_ipv6 iface rest
    else if ¬(lineFlags line &&& 1 = 1) ∧ ¬(lineFlags line &&& 32 = 32) then
      liftParse (parse_ipv6 ((lineParts line).getD 0 "").data)
    else get_stable_global_ipv6 iface rest

/-- The per-line eligibility test of the V6 selection, as one Boolean:
at least 6 fields, matching interface name, scope parsed as hex `0x00`
(unparseable hex read as `0xFF`), and neither flag bit `0x01` nor
`0x20` set. -/
def lineEligible (iface line : String) : Bool :=
  decide (¬(lineParts line).length < 6) &&
  decide ((lineParts line).getD 5 "" = iface) &&
  decide (lineScope line = 0) &&
  decide (¬(lineFlags line &&& 1 = 1) ∧ ¬(lineFlags line &&& 32 = 32))

/-! ## C6: the address-field decoder `parse_ipv6` -/

theorem utf8Size_one_of_lt {c : Char} (h : c.toNat < 128) : c.utf8Size = 1 := by
  rw [Char.utf8Size]
  have hle : c.val ≤ UInt32.ofNatCore 127 Char.utf8Size.proof_1 := by
    show c.val.toNat ≤ _
    exact Nat.le_of_lt_succ (by exact_mod_cast h)
  rw [if_pos hle]

theorem charToDigit16_isSome_ascii {c : Char} (h : (charToDigit 16 c).isSome = true) :
    c.utf8Size = 1 := by
  refine utf8Size_one_of_lt ?_
  rw [charToDigit] at h
  by_contra hge
  have h1 : ¬(48 ≤ c.toNat ∧ c.toNat ≤ 57) := by omega
  have h2 : ¬(97 ≤ c.toNat ∧ c.toNat ≤ 122) := by omega
  have h3 : ¬(65 ≤ c.toNat ∧ c.toNat ≤ 90) := by omega
  rw [charDigitVal, if_neg h1, if_neg h2, if_neg h3] at h
  cases h

theorem charToDigit16_isSome_ne_plus {c : Char} (h : (charToDigit 16 c).isSome = true) :
    c ≠ '+' := by
  intro hc
  rw [hc, show charToDigit 16 '+' = none by decide] at h
  cases h

theorem takeBytes_ascii : ∀ (n : Nat) (l : List Char), (∀ c ∈ l, c.utf8Size = 1) →
    n ≤ l.length → takeBytes l n = some (l.take n, l.drop n) := by
  intro n
  induction n with
  | zero => intro l _ _; cases l <;> rfl
  | succ n ih =>
    intro l hl hn
    cases l with
    | nil => simp at hn
    | cons c r =>
      have hc : c.utf8Size = 1 := hl c (List.mem_cons_self c r)
      rw [takeBytes, if_pos (by omega), hc, show n + 1 - 1 = n from rfl,
        ih r (fun x hx => hl x (List.mem_cons_of_mem c hx)) (by simpa using hn)]
      rfl

theorem utf8Len_ascii : ∀ l : List Char, (∀ c ∈ l, c.utf8Size = 1) →
    utf8Len l = l.length := by
  intro l
  induction l with
  | nil => intro _; rfl
  | cons c r ih =>
    intro hl
    rw [utf8Len, List.map_cons, List.sum_cons, hl c (List.mem_cons_self c r),
      show (List.map Char.utf8Size r).sum = utf8Len r from rfl,
      ih (fun x hx => hl x (List.mem_cons_of_mem c hx)), List.length_cons]
    omega

theorem byteSlice_ascii {l : List Char} (h1 : ∀ c ∈ l, c.utf8Size = 1)
    {i : Nat} (hi : i * 4 + 4 ≤ l.length) :
    byteSlice l (i * 4) (i * 4 + 4) = some ((l.drop (i * 4)).take 4) := by
  have hdrop : ∀ c ∈ l.drop (i * 4), c.utf8Size = 1 :=
    fun c hc => h1 c (List.mem_of_mem_drop hc)
  rw [byteSlice]
  simp only [takeBytes_ascii (i * 4) l h1 (by omega),
    show i * 4 + 4 - i * 4 = 4 by omega,
    takeBytes_ascii 4 (l.drop (i * 4)) hdrop (by rw [List.length_drop]; omega)]

theorem charToDigit_lt {radix : Nat} {c : Char} {d : Nat}
    (h : charToDigit radix c = some d) : d < radix := by
  rw [charToDigit] at h
  cases hv : charDigitVal c with
  | none =>
    simp only [hv] at h
    exact Option.noConfusion h
  | some d' =>
    simp only [hv] at h
    by_cases hlt : d' < radix
    · simp only [if_pos hlt, Option.some.injEq] at h
      omega
    · simp only [if_neg hlt] at h
      exact Option.noConfusion h

theorem fromStrRadixAux_hex : ∀ (l : List Char) (acc : Nat),
    (∀ c ∈ l, (charToDigit 16 c).isSome = true) →
    acc + 1 ≤ 16 ^ (4 - l.length) → l.length ≤ 4 →
    ∃ v, fromStrRadixAux 16 65535 l acc = some v := by
  intro l
  induction l with
  | nil => intro acc _ _ _; exact ⟨acc, rfl⟩
  | cons c r ih =>
    intro acc hdig hacc hlen
    simp only [List.length_cons] at hacc hlen
    obtain ⟨d, hd⟩ := Option.isSome_iff_exists.mp (hdig c (List.mem_cons_self c r))
    have hd16 : d < 16 := charToDigit_lt hd
    have hstep : acc * 16 + d + 1 ≤ 16 ^ (4 - r.length) := by
      have h1 : acc * 16 + d + 1 ≤ (acc + 1) * 16 := by omega
      have h2 : (acc + 1) * 16 ≤ 16 ^ (4 - (r.length + 1)) * 16 :=
        Nat.mul_le_mul_right 16 hacc
      have h3 : (16 : Nat) ^ (4 - (r.length + 1)) * 16 = 16 ^ (4 - r.length) := by
        rw [← Nat.pow_succ]
        congr 1
        omega
      omega
    have hbound : ¬(65535 < acc * 16 + d) := by
      have : (16 : Nat) ^ (4 - r.length) ≤ 16 ^ 4 :=
        Nat.pow_le_pow_right (by omega) (by omega)
      have h4 : (16 : Nat) ^ 4 = 65536 := by norm_num
      omega
    rw [fromStrRadixAux]
    simp only [hd, if_neg hbound]
    exact ih (acc * 16 + d) (fun x hx => hdig x (List.mem_cons_of_mem c hx)) hstep
      (by omega)

theorem fromStrRadix_hex {l : List Char} (hne : l ≠ [])
    (hdig : ∀ c ∈ l, (charToDigit 16 c).isSome = true) (hlen : l.length ≤ 4) :
    ∃ v, fromStrRadix 16 65535 l = some v := by
  have hstrip : stripPlus l = l := by
    rw [stripPlus]
    cases l with
    | nil => rfl
    | cons c r =>
      rw [if_neg]
      simp only [List.head?_cons, Option.some.injEq]
      exact charToDigit16_isSome_ne_plus (hdig c (List.mem_cons_self c r))
  rw [fromStrRadix, hstrip, if_neg hne]
  exact fromStrRadixAux_hex l 0 hdig
    (Nat.one_le_iff_ne_zero.mpr (Nat.pos_iff_ne_zero.mp (Nat.pos_pow_of_pos _ (by omega))))
    hlen

/-- The group loop neither panics nor stops short on all-ASCII input
that is long enough. -/
theorem parse_ipv6_aux_no_panic {l : List Char} (hascii : ∀ c ∈ l, c.utf8Size = 1) :
    ∀ (n i : Nat) (acc : List Nat), (i + n) * 4 ≤ l.length →
      parse_ipv6_aux l n i acc ≠ .panicked := by
  intro n
  induction n with
  | zero =>
    intro i acc _ h
    cases h
  | succ n ih =>
    intro i acc hlen
    rw [parse_ipv6_aux]
    simp only [byteSlice_ascii hascii (show i * 4 + 4 ≤ l.length by omega)]
    cases hg : fromStrRadix 16 65535 ((l.drop (i * 4)).take 4) with
    | none =>
      simp only [hg]
      intro h
      cases h
    | some g =>
      simp only [hg]
      exact ih (i + 1) (acc ++ [g]) (by omega)

/-- On 32 hex digits the group loop returns exactly `n` more groups. -/
theorem parse_ipv6_aux_hex {l : List Char} (hlen32 : l.length = 32)
    (hdig : ∀ c ∈ l, (charToDigit 16 c).isSome = true) :
    ∀ (n i : Nat) (acc : List Nat), (i + n) * 4 ≤ 32 →
      ∃ gs, parse_ipv6_aux l n i acc = .parsed gs ∧ gs.length = acc.length + n := by
  have hascii : ∀ c ∈ l, c.utf8Size = 1 :=
    fun c hc => charToDigit16_isSome_ascii (hdig c hc)
  intro n
  induction n with
  | zero =>
    intro i acc _
    exact ⟨acc, rfl, by omega⟩
  | succ n ih =>
    intro i acc hle
    rw [parse_ipv6_aux]
    simp only [byteSlice_ascii hascii
      (show i * 4 + 4 ≤ l.length by rw [hlen32]; omega)]
    have hsne : (l.drop (i * 4)).take 4 ≠ [] := by
      have hlen4 : ((l.drop (i * 4)).take 4).length = 4 := by
        rw [List.length_take, List.length_drop, hlen32]
        omega
      intro hnil
      rw [hnil] at hlen4
      cases hlen4
    have hsdig : ∀ c ∈ (l.drop (i * 4)).take 4, (charToDigit 16 c).isSome = true :=
      fun c hc => hdig c (List.mem_of_mem_drop (List.mem_of_mem_take hc))
    obtain ⟨v, hv⟩ := fromStrRadix_hex hsne hsdig (by rw [List.length_take]; omega)
    simp only [hv]
    obtain ⟨gs, hgs, hgslen⟩ := ih (i + 1) (acc ++ [v]) (by omega)
    refine ⟨gs, hgs, ?_⟩
    rw [hgslen, List.length_append, List.length_cons, List.length_nil]
    omega

/-- C6 counterexample inputs.  `"€€€€€€€€€€aa"` is 32 bytes long (so it
passes the length check) and contains non-hex content, yet the decoder
panics — byte-slicing `&hex[0..4]` hits a UTF-8 char boundary — instead
of returning a parse failure.  `"+abc+abc+abc+abc+abc+abc+abc+abc"` is
32 bytes of non-hex content (eight `+abc` groups), yet the decoder
returns an address: `u16::from_str_radix` accepts a leading `+` in each
4-byte group. -/
theorem parse_ipv6_claim_counterexample :
    (parse_ipv6 "€€€€€€€€€€aa".data = .panicked ∧
      utf8Len "€€€€€€€€€€aa".data = 32) ∧
    (parse_ipv6 "+abc+abc+abc+abc+abc+abc+abc+abc".data =
      .parsed (List.replicate 8 2748)) := by
  exact ⟨⟨by decide, by decide⟩, by decide⟩

/-- C6 (amended): the decoder never reads past its checks — a byte
length other than 32 is a length mismatch; 32 bytes of single-byte
characters never panic (each returns a parse failure or 8 groups); and
32 hex digits decode into exactly 8 16-bit groups.  A 32-byte input
with a multi-byte character across a 4-byte group boundary panics, and
a `+`-prefixed group is accepted as a digit group, so "any non-hex
content is a parse failure" holds only for single-byte inputs without
`+` signs. -/
theorem parse_ipv6_spec (l : List Char) :
    (utf8Len l ≠ 32 → parse_ipv6 l = .failed .lenMismatch) ∧
    (utf8Len l = 32 → (∀ c ∈ l, c.utf8Size = 1) → parse_ipv6 l ≠ .panicked) ∧
    (l.length = 32 → (∀ c ∈ l, (charToDigit 16 c).isSome = true) →
      ∃ gs, parse_ipv6 l = .parsed gs ∧ gs.length = 8) := by
  refine ⟨?_, ?_, ?_⟩
  · intro hlen
    rw [parse_ipv6, if_pos hlen]
  · intro hlen hascii
    rw [parse_ipv6, if_neg (by omega)]
    refine parse_ipv6_aux_no_panic hascii 8 0 [] ?_
    rw [← utf8Len_ascii l hascii, hlen]
  · intro hlen hdig
    have hascii : ∀ c ∈ l, c.utf8Size = 1 :=
      fun c hc => charToDigit16_isSome_ascii (hdig c hc)
    rw [parse_ipv6, if_neg (by rw [utf8Len_ascii l hascii, hlen]; omega)]
    obtain ⟨gs, hgs, hlen8⟩ := parse_ipv6_aux_hex hlen hdig 8 0 [] (by omega)
    exact ⟨gs, hgs, by rw [hlen8]; rfl⟩

theorem parse_ipv6_spec_witness :
    (parse_ipv6 "20010db800000000000000000000000".data = .failed .lenMismatch) ∧
    (parse_ipv6 "zz010db80000000000000000000000ff".data ≠ .panicked) ∧
    (∃ gs, parse_ipv6 "20010db8000000000000000000000001".data = .parsed gs ∧
      gs.length = 8) :=
  ⟨(parse_ipv6_spec "20010db800000000000000000000000".data).1 (by decide),
   (parse_ipv6_spec "zz010db80000000000000000000000ff".data).2.1 (by decide) (by decide),
   (parse_ipv6_spec "20010db8000000000000000000000001".data).2.2 (by decide) (by decide)⟩

/-! ## C5: the V6 selection over the interface table -/

theorem get_stable_global_ipv6_cons (iface line : String) (rest : List String) :
    get_stable_global_ipv6 iface (line :: rest) =
      if lineEligible iface line = true then
        liftParse (parse_ipv6 ((lineParts line).getD 0 "").data)
      else get_stable_global_ipv6 iface rest := by
  have hElig : lineEligible iface line = true ↔
      (¬(lineParts line).length < 6 ∧ (lineParts line).getD 5 "" = iface ∧
       lineScope line = 0 ∧
       (¬(lineFlags line &&& 1 = 1) ∧ ¬(lineFlags line &&& 32 = 32))) := by
    simp [lineEligible, and_assoc]
  rw [get_stable_global_ipv6]
  by_cases h6 : (lineParts line).length < 6
  · rw [if_pos h6, if_neg (fun hc => (hElig.mp hc).1 h6)]
  · rw [if_neg h6]
    by_cases hn : (lineParts line).getD 5 "" ≠ iface
    · rw [if_pos hn, if_neg (fun hc => hn (hElig.mp hc).2.1)]
    · rw [if_neg hn]
      push_neg at hn
      by_cases hs : lineScope line ≠ 0
      · rw [if_pos hs, if_neg (fun hc => hs (hElig.mp hc).2.2.1)]
      · rw [if_neg hs]
        push_neg at hs
        by_cases hf : ¬(lineFlags line &&& 1 = 1) ∧ ¬(lineFlags line &&& 32 = 32)
        · rw [if_pos hf, if_pos (hElig.mpr ⟨h6, hn, hs, hf⟩)]
        · rw [if_neg hf, if_neg (fun hc => hf (hElig.mp hc).2.2.2)]

/-- C5: the V6 grab returns the parse of the address field of the first
line, in table order, that passes per-line eligibility — interface-name
field matching, scope hex parsing to `0x00`, flag bits `0x01` and
`0x20` both clear — and fails with the none-matched error when no line
is eligible; a line whose scope or flags field is not parseable hex is
read as `0xFF` and is therefore never eligible. -/
theorem get_stable_global_ipv6_spec (iface : String) :
    (∀ (lines : List String) (line : String),
      lines.find? (lineEligible iface) = some line →
      get_stable_global_ipv6 iface lines =
        liftParse (parse_ipv6 ((lineParts line).getD 0 "").data)) ∧
    (∀ lines : List String,
      lines.find? (lineEligible iface) = none →
      get_stable_global_ipv6 iface lines = .failed .noneMatched) ∧
    (∀ line : String, fromStrRadix 16 255 ((lineParts line).getD 3 "").data = none →
      lineEligible iface line = false) ∧
    (∀ line : String, fromStrRadix 16 255 ((lineParts line).getD 4 "").data = none →
      lineEligible iface line = false) := by
  refine ⟨?_, ?_, ?_, ?_⟩
  · intro lines
    induction lines with
    | nil => intro line h; cases h
    | cons l rest ih =>
      intro line h
      by_cases he : lineEligible iface l = true
      · rw [List.find?_cons_of_pos rest he] at h
        cases h
        rw [get_stable_global_ipv6_cons, if_pos he]
      · rw [List.find?_cons_of_neg rest he] at h
        rw [get_stable_global_ipv6_cons, if_neg he]
        exact ih line h
  · intro lines
    induction lines with
    | nil => intro _; rfl
    | cons l rest ih =>
      intro h
      by_cases he : lineEligible iface l = true
      · rw [List.find?_cons_of_pos rest he] at h
        cases h
      · rw [List.find?_cons_of_neg rest he] at h
        rw [get_stable_global_ipv6_cons, if_neg he]
        exact ih h
  · intro line hbad
    rw [lineEligible, lineScope, hbad]
    simp
  · intro line hbad
    rw [lineEligible, lineFlags, hbad]
    simp

theorem get_stable_global_ipv6_spec_witness :
    (get_stable_global_ipv6 "eth0"
      ["fe800db8000000000000000000000001 02 40 20 80 eth0",
       "20010db8000000000000000000000001 02 40 00 01 eth0",
       "20010db8000000000000000000000002 02 40 00 80 wlan0",
       "20010db8000000000000000000000003 02 40 00 80 eth0",
       "20010db8000000000000000000000004 02 40 00 80 eth0"] =
      liftParse (parse_ipv6 "20010db8000000000000000000000003".data)) ∧
    (get_stable_global_ipv6 "eth0"
      ["20010db8000000000000000000000001 02 40 zz 80 eth0"] =
      .failed .noneMatched) ∧
    (lineEligible "eth0" "20010db8000000000000000000000001 02 40 zz 80 eth0" = false) := by
  have hspec := get_stable_global_ipv6_spec "eth0"
  refine ⟨?_, ?_, ?_⟩
  · have := hspec.1
      ["fe800db8000000000000000000000001 02 40 20 80 eth0",
       "20010db8000000000000000000000001 02 40 00 01 eth0",
       "20010db8000000000000000000000002 02 40 00 80 wlan0",
       "20010db8000000000000000000000003 02 40 00 80 eth0",
       "20010db8000000000000000000000004 02 40 00 80 eth0"]
      "20010db8000000000000000000000003 02 40 00 80 eth0" (by decide)
    rw [this]
    rfl
  · exact hspec.2.1 ["20010db8000000000000000000000001 02 40 zz 80 eth0"] (by decide)
  · exact hspec.2.2.1 "20010db8000000000000000000000001 02 40 zz 80 eth0" (by decide)

/-! ## C7 and C9: the poll loop's change detection and failure frame -/

/-- One iteration of the loop body of `IpGrabber::run` (lines 59-84):
on a successful poll, skip when the address equals the cached one,
otherwise update the cache and emit; on a failed poll leave the cache
alone and emit nothing.  Returns the new cache and the emissions. -/
def grabberStep (last : Option IpAddrM) (poll : Except GrabErrorM IpAddrM) :
    Option IpAddrM × List IpAddrM :=
  match poll with
  | .ok current =>
    match last with
    | some lastIp => if current = lastIp then (last, []) else (some current, [current])
    | none => (some current, [current])
  | .error _ => (last, [])

/-- The loop over a finite sequence of poll results. -/
def grabberRun (last : Option IpAddrM) : List (Except GrabErrorM IpAddrM) →
    Option IpAddrM × List IpAddrM
  | [] => (last, [])
  | poll :: rest =>
    match grabberStep last poll with
    | (last', out) =>
      match grabberRun last' rest with
      | (lastF, outs) => (lastF, out ++ outs)

theorem grabberStep_ok (last : Option IpAddrM) (ip : IpAddrM) :
    grabberStep last (.ok ip) =
      if last = some ip then (last, []) else (some ip, [ip]) := by
  cases last with
  | none =>
    rw [if_neg (fun h => Option.noConfusion h)]
    rfl
  | some lastIp =>
    by_cases he : ip = lastIp
    · subst he
      show (if ip = ip then (some ip, ([] : List IpAddrM)) else (some ip, [ip])) = _
      rw [if_pos rfl, if_pos rfl]
    · show (if ip = lastIp then (some lastIp, ([] : List IpAddrM)) else (some ip, [ip])) = _
      rw [if_neg he, if_neg (fun h => he (by cases h; rfl))]

theorem grabberStep_error (last : Option IpAddrM) (e : GrabErrorM) :
    grabberStep last (.error e) = (last, []) := rfl

theorem grabberRun_cons {last last' : Option IpAddrM} {out : List IpAddrM}
    (poll : Except GrabErrorM IpAddrM) (rest : List (Except GrabErrorM IpAddrM))
    (h : grabberStep last poll = (last', out)) :
    grabberRun last (poll :: rest) =
      ((grabberRun last' rest).1, out ++ (grabberRun last' rest).2) := by
  rw [grabberRun, h]

/-- Successful polls of the cached address are fully absorbed. -/
theorem grabberRun_absorb (a : IpAddrM) :
    ∀ (n : Nat) (rest : List (Except GrabErrorM IpAddrM)),
      grabberRun (some a) (List.replicate n (.ok a) ++ rest) =
        grabberRun (some a) rest := by
  intro n
  induction n with
  | zero => intro rest; rw [List.replicate_zero, List.nil_append]
  | succ n ih =>
    intro rest
    rw [List.replicate_succ, List.cons_append,
      grabberRun_cons _ _ (by rw [grabberStep_ok, if_pos rfl]), ih, List.nil_append]

/-- C7: a successfully grabbed address is emitted exactly when it
differs from the cached last-observed value, and the cache then holds
the new value before the emission; consequently a run of identical
successful polls emits only the first address, and a later distinct
address is emitted exactly once more. -/
theorem grabber_change_detection :
    (∀ (last : Option IpAddrM) (ip : IpAddrM),
      grabberStep last (.ok ip) =
        if last = some ip then (last, []) else (some ip, [ip])) ∧
    (∀ (n : Nat) (a : IpAddrM), 0 < n →
      grabberRun none (List.replicate n (.ok a)) = (some a, [a])) ∧
    (∀ (n m : Nat) (a b : IpAddrM), 0 < n → 0 < m → a ≠ b →
      grabberRun none (List.replicate n (.ok a) ++ List.replicate m (.ok b)) =
        (some b, [a, b])) := by
  have hnil : ∀ last : Option IpAddrM, grabberRun last [] = (last, []) :=
    fun last => rfl
  have hfirst : ∀ (n : Nat) (a : IpAddrM) (rest : List (Except GrabErrorM IpAddrM)),
      0 < n →
      grabberRun none (List.replicate n (.ok a) ++ rest) =
        ((grabberRun (some a) rest).1, a :: (grabberRun (some a) rest).2) := by
    intro n a rest hn
    cases n with
    | zero => omega
    | succ n =>
      rw [List.replicate_succ, List.cons_append,
        grabberRun_cons _ _ (by rw [grabberStep_ok,
          if_neg (fun h => Option.noConfusion h)]),
        grabberRun_absorb a n rest]
      rfl
  refine ⟨grabberStep_ok, ?_, ?_⟩
  · intro n a hn
    have h := hfirst n a [] hn
    rw [List.append_nil] at h
    rw [h, hnil (some a)]
  · intro n m a b hn hm hab
    rw [hfirst n a (List.replicate m (.ok b)) hn]
    have hsecond : grabberRun (some a) (List.replicate m (.ok b)) = (some b, [b]) := by
      cases m with
      | zero => omega
      | succ m =>
        rw [List.replicate_succ,
          grabberRun_cons _ _ (by rw [grabberStep_ok,
            if_neg (fun h => hab (by cases h; rfl))]),
          show List.replicate m (Except.ok b (ε := GrabErrorM)) =
            List.replicate m (.ok b) ++ [] by rw [List.append_nil],
          grabberRun_absorb b m [], hnil (some b)]
        rfl
    rw [hsecond]

theorem grabber_change_detection_witness :
    (grabberStep (some (IpAddrM.v4 1 2 3 4)) (.ok (IpAddrM.v4 1 2 3 4)) =
      (some (IpAddrM.v4 1 2 3 4), [])) ∧
    (grabberRun none (List.replicate 3 (.ok (IpAddrM.v4 1 2 3 4))) =
      (some (IpAddrM.v4 1 2 3 4), [IpAddrM.v4 1 2 3 4])) ∧
    (grabberRun none (List.replicate 2 (.ok (IpAddrM.v4 1 2 3 4)) ++
        List.replicate 2 (.ok (IpAddrM.v4 5 6 7 8))) =
      (some (IpAddrM.v4 5 6 7 8), [IpAddrM.v4 1 2 3 4, IpAddrM.v4 5 6 7 8])) := by
  refine ⟨?_, ?_, ?_⟩
  · rw [grabber_change_detection.1 (some (IpAddrM.v4 1 2 3 4)) (IpAddrM.v4 1 2 3 4)]
    rw [if_pos rfl]
  · exact grabber_change_detection.2.1 3 (IpAddrM.v4 1 2 3 4) (by omega)
  · exact grabber_change_detection.2.2 2 2 (IpAddrM.v4 1 2 3 4) (IpAddrM.v4 5 6 7 8)
      (by omega) (by omega) (by decide)

/-- C9: a failed poll leaves the cached last-observed address untouched
and emits nothing — an error iteration is the identity on the loop
state — so a later successful poll of the previously cached address is
still suppressed. -/
theorem grabber_error_frame :
    (∀ (last : Option IpAddrM) (e : GrabErrorM),
      grabberStep last (.error e) = (last, [])) ∧
    (∀ (last : Option IpAddrM) (e : GrabErrorM)
        (rest : List (Except GrabErrorM IpAddrM)),
      grabberRun last (.error e :: rest) = grabberRun last rest) ∧
    (∀ (a : IpAddrM) (e : GrabErrorM),
      grabberRun (some a) [.error e, .ok a] = (some a, [])) := by
  have hcons : ∀ (last : Option IpAddrM) (e : GrabErrorM)
      (rest : List (Except GrabErrorM IpAddrM)),
      grabberRun last (.error e :: rest) = grabberRun last rest := by
    intro last e rest
    rw [grabberRun_cons _ _ (grabberStep_error last e), List.nil_append]
  refine ⟨grabberStep_error, hcons, ?_⟩
  intro a e
  rw [hcons (some a) e [.ok a],
    show ([.ok a] : List (Except GrabErrorM IpAddrM)) =
      List.replicate 1 (.ok a) ++ [] by rw [List.append_nil]; rfl,
    grabberRun_absorb a 1 []]
  rfl

theorem grabber_error_frame_witness :
    grabberRun (some (IpAddrM.v4 9 9 9 9)) [.error GrabErrorM.noneMatched,
      .ok (IpAddrM.v4 9 9 9 9)] = (some (IpAddrM.v4 9 9 9 9), []) :=
  grabber_error_frame.2.2 (IpAddrM.v4 9 9 9 9) GrabErrorM.noneMatched

/-! ## C4: poll-loop startup and the configured interval -/

/-- The `tokio::time::interval` collaborator, modelled by its documented
contract: building an interval panics if and only if the period is
zero. -/
def tokio_interval_panics (period_secs : Nat) : Bool := period_secs == 0

/-- `IpGrabber::run` (lines 57-58) builds the success-tick interval with
period `poll_secs` and the error-tick interval with period
`poll_secs / 10` before entering the loop; startup panics when either
period is zero. -/
def run_start_panics (poll_secs : Nat) : Bool :=
  tokio_interval_panics poll_secs || tokio_interval_panics (poll_secs / 10)

/-- The tick periods used after the checks pass: the configured interval
on success and the integer tenth of it on failure. -/
def run_tick_periods (poll_secs : Nat) : Nat × Nat := (poll_secs, poll_secs / 10)

/-- C4 evaluation: the config parser accepts `POLL_SECS = 0` — the
spec's own §8 example — yet `run` then panics at startup (zero-period
interval), and every `poll_secs < 10` panics through the error interval;
only `poll_secs ≥ 10` starts, ticking at `poll_secs` after a success and
at `poll_secs / 10` after a failure. -/
theorem run_start_panics_spec :
    run_start_panics 0 = true ∧
    (∀ p : Nat, p < 10 → run_start_panics p = true) ∧
    (∀ p : Nat, 10 ≤ p → run_start_panics p = false ∧
      run_tick_periods p = (p, p / 10)) ∧
    (parse_dns_tuples "(FD;TOK;ipv4;0)" = .ok [.freeDns "TOK" .V4 0] ∧
      run_start_panics (Provider.freeDns "TOK" .V4 0).get_poll_secs = true) := by
  refine ⟨rfl, ?_, ?_, by decide, rfl⟩
  · intro p hp
    have h10 : p / 10 = 0 := by omega
    rw [run_start_panics, h10]
    simp [tokio_interval_panics]
  · intro p hp
    refine ⟨?_, rfl⟩
    have h10 : p / 10 ≠ 0 := by
      have := Nat.div_le_div_right (c := 10) hp
      omega
    rw [run_start_panics]
    simp [tokio_interval_panics]
    omega

theorem run_start_panics_spec_witness :
    run_start_panics 5 = true ∧ run_start_panics 60 = false ∧
      run_tick_periods 60 = (60, 6) :=
  ⟨run_start_panics_spec.2.1 5 (by omega),
   (run_start_panics_spec.2.2.1 60 (by omega)).1,
   (run_start_panics_spec.2.2.1 60 (by omega)).2⟩
